import Mathlib

/-!
Verification development for the pager of the limbo repository
(src/core/storage/pager.rs).

The Rust source is shallowly embedded: each pager operation is translated
into an executable Lean function over an explicit `PagerS` state record.
Machine integers (`u32`, `usize`) are modelled as `Nat`; every value the
code keeps in a `u32` is accompanied, where it matters, by a `< 2^32`
hypothesis.  Fallible code returns sum types mirroring
`Result<IOResult<T>>`.  Byte buffers are `List Nat` with each element a
byte.  The page-flag bitset (`PAGE_UPTODATE` .. `PAGE_LOADED`, each a
distinct bit of an atomic word manipulated with single-bit fetch_or /
fetch_and) is modelled as a record of five `Bool`s, one per bit.

External collaborators that live outside src/ (the WAL subsystem, the page
cache, the on-disk codec and the header accessors) are modelled from the
spec's contracts; each such definition carries a doc comment starting with
`Modelled from the spec:`.  Calls into the WAL are recorded in an
append-only event trace stored newest-first (`trace : List WalEvent`),
so temporal claims become statements about the order of trace entries.
-/

namespace LimboPager

/-- Error taxonomy surfaced by the pager (src LimboError variants used by
pager.rs). -/
inductive LimboError where
  | Corrupt (msg : String)
  | InternalError (msg : String)
  | CacheFull
  deriving DecidableEq, Repr

def LimboError.isCorrupt : LimboError → Bool
  | .Corrupt _ => true
  | _ => false

def LimboError.isInternal : LimboError → Bool
  | .InternalError _ => true
  | _ => false

/-- `IOResult<T>`: `Done(T)` or cooperative suspension `IO`. -/
inductive IOResult (α : Type) where
  | Done (v : α)
  | Io
  deriving DecidableEq, Repr

/-- `CheckpointResult` (wal.rs, declared out of src; only its shape is
needed).  `default()` is the all-zero record. -/
structure CheckpointResult where
  numWalFrames : Nat
  numCheckpointedFrames : Nat
  deriving DecidableEq, Repr

def CheckpointResult.dflt : CheckpointResult := ⟨0, 0⟩

/-- `PagerCommitResult` from pager.rs. -/
inductive PagerCommitResult where
  | WalWritten
  | Checkpointed (r : CheckpointResult)
  | Rollback
  deriving DecidableEq, Repr

/-! ## Byte-buffer primitives

Modelled from the spec: the on-disk codec (`PageContent::read_u32` /
`write_u32`, out of src) reads and writes 4-byte big-endian integers at a
byte offset inside the page buffer; `u32::to_be_bytes` /
`from_be_bytes` are the Rust standard library. -/

def byteAt (data : List Nat) (i : Nat) : Nat := (data[i]?).getD 0

/-- Big-endian u32 read of bytes `off .. off+3`. -/
def readU32 (data : List Nat) (off : Nat) : Nat :=
  ((byteAt data off * 256 + byteAt data (off + 1)) * 256
      + byteAt data (off + 2)) * 256 + byteAt data (off + 3)

/-- Big-endian u32 write of `v` at bytes `off .. off+3`. -/
def writeU32 (data : List Nat) (off : Nat) (v : Nat) : List Nat :=
  ((((data.set off (v / 2 ^ 24 % 256)).set (off + 1) (v / 2 ^ 16 % 256)).set
      (off + 2) (v / 2 ^ 8 % 256)).set (off + 3) (v % 256))

/-! ## Page model -/

/-- The five page-flag bits of pager.rs (`PAGE_UPTODATE`, `PAGE_LOCKED`,
`PAGE_ERROR`, `PAGE_DIRTY`, `PAGE_LOADED`), one field per bit of the
atomic flag word. -/
structure Flags where
  uptodate : Bool
  locked : Bool
  error : Bool
  dirty : Bool
  loaded : Bool
  deriving DecidableEq, Repr

/-- `PageContent` (sqlite3_ondisk, out of src): an `offset` (100 for page 1,
else 0), the page-sized byte buffer, and the overflow-cell list (we only
track its length, the pager only ever clears it). -/
structure PContents where
  offset : Nat
  data : List Nat
  overflowCells : Nat
  deriving DecidableEq, Repr

/-- `PageContent::read_u32(pos)` reads at `offset + pos` of the buffer.
Modelled from the spec: free-list trunk wire format, u32 big-endian. -/
def PContents.readU32At (c : PContents) (pos : Nat) : Nat :=
  readU32 c.data (c.offset + pos)

/-- `PageContent::write_u32(pos, v)`. -/
def PContents.writeU32At (c : PContents) (pos v : Nat) : PContents :=
  { c with data := writeU32 c.data (c.offset + pos) v }

/-- `PageInner`: flags, optional contents, id, pin count. -/
structure MPage where
  id : Nat
  flags : Flags
  pinCount : Nat
  contents : Option PContents
  deriving DecidableEq, Repr

def MPage.clearDirtyP (p : MPage) : MPage :=
  { p with flags := { p.flags with dirty := false } }

def MPage.setDirtyP (p : MPage) : MPage :=
  { p with flags := { p.flags with dirty := true } }

def MPage.clearUptodateP (p : MPage) : MPage :=
  { p with flags := { p.flags with uptodate := false } }

/-! ## Pointer-map pure functions (pager.rs `mod ptrmap`) -/

def PTRMAP_ENTRY_SIZE : Nat := 5
def FIRST_PTRMAP_PAGE_NO : Nat := 2
def MIN_PAGE_SIZE : Nat := 512

inductive PtrmapType where
  | RootPage
  | FreePage
  | Overflow1
  | Overflow2
  | BTreeNode
  deriving DecidableEq, Repr

/-- `PtrmapType as u8` (discriminants 1..5). -/
def PtrmapType.toU8 : PtrmapType → Nat
  | .RootPage => 1
  | .FreePage => 2
  | .Overflow1 => 3
  | .Overflow2 => 4
  | .BTreeNode => 5

/-- `PtrmapType::from_u8`. -/
def PtrmapType.fromU8 (value : Nat) : Option PtrmapType :=
  match value with
  | 1 => some .RootPage
  | 2 => some .FreePage
  | 3 => some .Overflow1
  | 4 => some .Overflow2
  | 5 => some .BTreeNode
  | _ => none

structure PtrmapEntry where
  entryType : PtrmapType
  parentPageNo : Nat
  deriving DecidableEq, Repr

/-- `PtrmapEntry::serialize`: byte 0 = type, bytes 1..5 = parent u32 BE;
errors when the buffer is shorter than 5 bytes. -/
def PtrmapEntry.serialize (e : PtrmapEntry) (buffer : List Nat) :
    Except LimboError (List Nat) :=
  if buffer.length < PTRMAP_ENTRY_SIZE then
    .error (.InternalError "Buffer too small to serialize ptrmap entry")
  else
    .ok (((((buffer.set 0 e.entryType.toU8).set 1
        (e.parentPageNo / 2 ^ 24 % 256)).set 2
        (e.parentPageNo / 2 ^ 16 % 256)).set 3
        (e.parentPageNo / 2 ^ 8 % 256)).set 4 (e.parentPageNo % 256))

/-- `PtrmapEntry::deserialize`. -/
def PtrmapEntry.deserialize (buffer : List Nat) : Option PtrmapEntry :=
  if buffer.length < PTRMAP_ENTRY_SIZE then none
  else
    let entryTypeU8 := byteAt buffer 0
    let parentPageNo :=
      ((byteAt buffer 1 * 256 + byteAt buffer 2) * 256
          + byteAt buffer 3) * 256 + byteAt buffer 4
    (PtrmapType.fromU8 entryTypeU8).map fun entryType =>
      { entryType := entryType, parentPageNo := parentPageNo }

/-- `entries_per_ptrmap_page`. -/
def entries_per_ptrmap_page (pageSize : Nat) : Nat :=
  pageSize / PTRMAP_ENTRY_SIZE

/-- `ptrmap_page_cycle_length`. -/
def ptrmap_page_cycle_length (pageSize : Nat) : Nat :=
  pageSize / PTRMAP_ENTRY_SIZE + 1

/-- `get_ptrmap_page_no_for_db_page`.  (The Rust panics when
`group_size == 0`; that branch is unreachable for `page_size ≥ 512` and is
rendered as returning 0.) -/
def get_ptrmap_page_no_for_db_page (dbPageNoToQuery pageSize : Nat) : Nat :=
  let groupSize := ptrmap_page_cycle_length pageSize
  if groupSize = 0 then 0
  else
    let effectivePageIndex := dbPageNoToQuery - FIRST_PTRMAP_PAGE_NO
    let groupIdx := effectivePageIndex / groupSize
    groupIdx * groupSize + FIRST_PTRMAP_PAGE_NO

/-- `is_ptrmap_page`. -/
def is_ptrmap_page (dbPageNo pageSize : Nat) : Bool :=
  if dbPageNo = 1 then false
  else if dbPageNo = FIRST_PTRMAP_PAGE_NO then true
  else get_ptrmap_page_no_for_db_page dbPageNo pageSize = dbPageNo

/-- `get_ptrmap_offset_in_page`. -/
def get_ptrmap_offset_in_page (dbPageNoToQuery ptrmapPageNo pageSize : Nat) :
    Except LimboError Nat :=
  let nDataPagesPerGroup := entries_per_ptrmap_page pageSize
  let firstDataPageMapped := ptrmapPageNo + 1
  let lastDataPageMapped := ptrmapPageNo + nDataPagesPerGroup
  if dbPageNoToQuery < firstDataPageMapped ∨
      lastDataPageMapped < dbPageNoToQuery then
    .error (.InternalError "page is not mapped by this ptrmap page")
  else if is_ptrmap_page dbPageNoToQuery pageSize then
    .error (.InternalError "page is a pointer map page")
  else
    .ok ((dbPageNoToQuery - firstDataPageMapped) * PTRMAP_ENTRY_SIZE)

/-! ## WAL interaction trace

Modelled from the spec: the WAL subsystem is an external collaborator
(`append_frame`, `sync`, `finish_append_frames_commit`, `checkpoint`).
Each call the pager makes into it is recorded as an event.  The trace is
stored newest-first (events are consed on). -/

inductive WalEvent where
  | append (pageId dbSize : Nat)
  | syncOk
  | finishCommit
  | checkpointInvoked
  | dbSyncBegin
  | walRollback
  deriving DecidableEq, Repr

/-- The `(page_id, db_size)` pairs of the `append_frame` calls in a trace
(newest first). -/
def appendsOf (t : List WalEvent) : List (Nat × Nat) :=
  t.filterMap fun e =>
    match e with
    | .append p d => some (p, d)
    | _ => none

/-! ## Pager state-machine enums (pager.rs) -/

inductive CommitState where
  | start
  | appendFrame (currentPageToAppendIdx : Nat)
  | waitAppendFrame (currentPageToAppendIdx : Nat)
  | syncWal
  | checkpoint
  | syncDbFile
  | waitSyncDbFile
  deriving DecidableEq, Repr

inductive CacheFlushState where
  | start
  | appendFrame (currentPageToAppendIdx : Nat)
  | waitAppendFrame (currentPageToAppendIdx : Nat)
  deriving DecidableEq, Repr

inductive CheckpointState where
  | checkpoint
  | syncDbFile
  | waitSyncDbFile
  | checkpointDone
  deriving DecidableEq, Repr

/-- `AllocatePage1State`; the `Writing` payload (write counter, page) is
reduced to the counter value, which is all the pager inspects. -/
inductive AllocatePage1State where
  | start
  | writing (writeCounter : Nat)
  | done
  deriving DecidableEq, Repr

/-- `FreePageState`; the `Arc<Page>` payloads are represented by page ids
(pages are identified by id in the cache model below). -/
inductive FreePageState where
  | start
  | addToTrunk (pageId : Nat) (trunkPageId : Option Nat)
  | newTrunk (pageId : Nat)
  deriving DecidableEq, Repr

structure CommitInfo where
  state : CommitState
  inFlightWrites : Nat
  dirtyPages : List Nat
  deriving DecidableEq, Repr

structure FlushInfo where
  state : CacheFlushState
  inFlightWrites : Nat
  dirtyPages : List Nat
  deriving DecidableEq, Repr

/-- Modelled from the spec: the database-header fields the pager reads and
writes through the `header_accessor` layer (out of src). -/
structure DbHeader where
  databaseSize : Nat
  freelistTrunkPage : Nat
  freelistPages : Nat
  deriving DecidableEq, Repr

/-- The pager state: header fields, the page cache (an association list
keyed by page id; Modelled from the spec: the cache is a bounded keyed
map — capacity bounds are abstracted away, so `CacheFull` never fires in
the model), the dirty set (as a list without duplicates, standing for the
`HashSet` whose snapshot order is arbitrary), the resumable FSM fields,
and the WAL call trace. -/
structure PagerS where
  header : DbHeader
  pageSizeCached : Nat
  reservedSpace : Nat
  cache : List (Nat × MPage)
  dirtyPages : List Nat
  commitInfo : CommitInfo
  flushInfo : FlushInfo
  checkpointState : CheckpointState
  checkpointInflight : Nat
  syncing : Bool
  allocatePage1State : AllocatePage1State
  freePageState : FreePageState
  trace : List WalEvent
  deriving DecidableEq, Repr

/-! ## Cache primitives -/

def cacheGet (c : List (Nat × MPage)) (id : Nat) : Option MPage :=
  match c with
  | [] => none
  | e :: rest => if e.1 = id then some e.2 else cacheGet rest id

/-- Mutation of the page object with the given id (pages are shared
`Arc`s in the source; here the cache entry is the object). -/
def cacheUpdate (c : List (Nat × MPage)) (id : Nat) (f : MPage → MPage) :
    List (Nat × MPage) :=
  c.map fun e => if e.1 = id then (e.1, f e.2) else e

/-- `DumbLruPageCache::unset_dirty_all_pages`.  Modelled from the spec:
clears the DIRTY flag of every cached page. -/
def unset_dirty_all_pages (c : List (Nat × MPage)) : List (Nat × MPage) :=
  c.map fun e => (e.1, e.2.clearDirtyP)

/-- `DumbLruPageCache::clear`.  Modelled from the spec: `clear` fails if
any page is pinned, else empties the cache. -/
def cacheClear (c : List (Nat × MPage)) : Option (List (Nat × MPage)) :=
  if c.all (fun e => e.2.pinCount = 0) then some [] else none

def cacheIds (c : List (Nat × MPage)) : List Nat := c.map (·.1)

/-- `Pager::usable_space` (cached page_size minus cached reserved_space). -/
def usable_space (s : PagerS) : Nat := s.pageSizeCached - s.reservedSpace

/-- `Pager::add_dirty`: insert the page id into the dirty set and set the
page's DIRTY flag. -/
def add_dirty (s : PagerS) (pageId : Nat) : PagerS :=
  { s with
    dirtyPages :=
      if pageId ∈ s.dirtyPages then s.dirtyPages else s.dirtyPages ++ [pageId],
    cache := cacheUpdate s.cache pageId MPage.setDirtyP }

/-- `Pager::read_page`.  On a cache hit the cached page is returned.  On a
miss a fresh page is created in LOCKED state; `walHasFrame` is the answer
of the external WAL index (`find_frame`): when true the WAL read path also
sets UPTODATE immediately (pager.rs line 835).  The scheduled read itself
completes outside the pager, so the new page stays unloaded here.  The
model cache is unbounded, so the `CacheFull` branch of the source cannot
fire. -/
def read_page (walHasFrame : Bool) (s : PagerS) (pageIdx : Nat) :
    MPage × PagerS :=
  match cacheGet s.cache pageIdx with
  | some page => (page, s)
  | none =>
    let page : MPage :=
      { id := pageIdx,
        flags :=
          { uptodate := walHasFrame, locked := true, error := false,
            dirty := false, loaded := false },
        pinCount := 0, contents := none }
    (page, { s with cache := (pageIdx, page) :: s.cache })

/-! ## `Pager::free_page` -/

/-- Result of one `free_page` call: `Ok(Done(()))`, `Ok(IO)`, `Err(e)`, or
the model-level markers for a Rust panic / exhausted loop fuel (the source
loop is structurally bounded at three arms per call, so fuel 4 never runs
out). -/
inductive FPOut where
  | done
  | io
  | err (e : LimboError)
  | panicked
  | outOfFuel
  deriving DecidableEq, Repr

/-- Outcome of one arm of the `free_page` loop: return a result, or fall
through to the next arm with the updated state. -/
inductive FPStep where
  | ret (r : FPOut) (s : PagerS)
  | next (s : PagerS)

/-- The `FreePageState::Start` arm of `Pager::free_page` (pager.rs
1297-1336): range check, page resolution (clearing overflow cells of a
provided loaded page), `freelist_pages` increment, and dispatch to
`AddToTrunk` or `NewTrunk`.  A provided page must be the cached object of
that id, otherwise the model panics. -/
def free_page_start (walHit : Bool) (pageParam : Option Nat) (pageId : Nat)
    (s : PagerS) : FPStep :=
  if pageId < 2 ∨ s.header.databaseSize < pageId then
    .ret (.err (.Corrupt "Invalid page number for free operation")) s
  else
    let resolved : Option PagerS :=
      match pageParam with
      | some pid =>
        if pid = pageId then
          match cacheGet s.cache pid with
          | some pg =>
            if pg.flags.loaded then
              match pg.contents with
              | some _ =>
                some { s with cache := cacheUpdate s.cache pid fun q =>
                  { q with contents :=
                      q.contents.map fun c => { c with overflowCells := 0 } } }
              | none => none
            else some s
          | none => none
        else none
      | none => some (read_page walHit s pageId).2
    match resolved with
    | none => .ret .panicked s
    | some s1 =>
      let s2 := { s1 with header :=
        { s1.header with freelistPages := s1.header.freelistPages + 1 } }
      let trunkPageId := s2.header.freelistTrunkPage
      if trunkPageId ≠ 0 then
        .next { s2 with freePageState := .addToTrunk pageId none }
      else
        .next { s2 with freePageState := .newTrunk pageId }

/-- The `FreePageState::AddToTrunk` arm (pager.rs 1337-1375). -/
def free_page_add_to_trunk (walHit : Bool) (pageId pid : Nat)
    (trunkOpt : Option Nat) (s : PagerS) : FPStep :=
  let trunkPageId := s.header.freelistTrunkPage
  let resolved : Nat × PagerS :=
    match trunkOpt with
    | some t => (t, s)
    | none =>
      let rp := read_page walHit s trunkPageId
      (rp.1.id, { rp.2 with freePageState := .addToTrunk pid (some trunkPageId) })
  let trunkId := resolved.1
  let s1 := resolved.2
  match cacheGet s1.cache trunkId with
  | none => .ret .panicked s1
  | some trunkPg =>
    if trunkPg.flags.locked ∨ ¬ trunkPg.flags.loaded then .ret .io s1
    else
      match trunkPg.contents with
      | none => .ret .panicked s1
      | some tc =>
        let numberOfLeafPages := tc.readU32At 4
        let maxFreeListEntries := usable_space s1 / 4 - 2
        if numberOfLeafPages < maxFreeListEntries then
          if trunkPg.id = trunkPageId then
            let s2 := add_dirty s1 trunkId
            let wupd : PContents → PContents := fun c =>
              (c.writeU32At 4 (numberOfLeafPages + 1)).writeU32At (8 + numberOfLeafPages * 4) pageId
            let s3 := { s2 with cache := cacheUpdate s2.cache trunkId (fun q => { q with contents := q.contents.map wupd }) }
            let s4 := { s3 with cache := cacheUpdate s3.cache pid MPage.clearUptodateP }
            .ret .done { s4 with freePageState := .start }
          else .ret .panicked s1
        else
          .next { s1 with freePageState := .newTrunk pid }

/-- The `FreePageState::NewTrunk` arm (pager.rs 1376-1396). -/
def free_page_new_trunk (pageId pid : Nat) (s : PagerS) : FPStep :=
  match cacheGet s.cache pid with
  | none => .ret .panicked s
  | some pg =>
    if pg.flags.locked ∨ ¬ pg.flags.loaded then .ret .io s
    else if pg.id = pageId then
      let s1 := add_dirty s pid
      let trunkPageId := s1.header.freelistTrunkPage
      match (cacheGet s1.cache pid).bind (·.contents) with
      | none => .ret .panicked s1
      | some _ =>
        let wupd : PContents → PContents := fun c =>
          (c.writeU32At 0 trunkPageId).writeU32At 4 0
        let s2 := { s1 with cache := cacheUpdate s1.cache pid (fun q => { q with contents := q.contents.map wupd }) }
        let s3 := { s2 with header := { s2.header with freelistTrunkPage := pageId } }
        let s4 := { s3 with cache := cacheUpdate s3.cache pid MPage.clearUptodateP }
        .ret .done { s4 with freePageState := .start }
    else .ret .panicked s

/-- One arm of the `free_page` loop, dispatched on `free_page_state`. -/
def free_page_arm (walHit : Bool) (pageParam : Option Nat) (pageId : Nat)
    (s : PagerS) : FPStep :=
  match s.freePageState with
  | .start => free_page_start walHit pageParam pageId s
  | .addToTrunk pid trunkOpt => free_page_add_to_trunk walHit pageId pid trunkOpt s
  | .newTrunk pid => free_page_new_trunk pageId pid s

/-- The body of `Pager::free_page` (pager.rs 1284-1401): a loop over
`free_page_state`; the `break` arms already reset the state to `Start`
before returning `Done`, mirroring line 1399.  `walHit k` answers the
`read_page` miss of the k-th arm. -/
def free_page_loop (walHit : Nat → Bool) (pageParam : Option Nat)
    (pageId : Nat) :
    Nat → Nat → PagerS → FPOut × PagerS
  | 0, _, s => (.outOfFuel, s)
  | fuel + 1, k, s =>
    match free_page_arm (walHit k) pageParam pageId s with
    | .ret r s' => (r, s')
    | .next s' => free_page_loop walHit pageParam pageId fuel (k + 1) s'

/-- One call of `Pager::free_page`.  The source loop passes through at
most three arms per call (`Start → AddToTrunk → NewTrunk`), so fuel 4 is
never exhausted. -/
def free_page (walHit : Nat → Bool) (pageParam : Option Nat) (pageId : Nat)
    (s : PagerS) : FPOut × PagerS :=
  free_page_loop walHit pageParam pageId 4 0 s

/-! ## `Pager::rollback` -/

/-- `Pager::reset_internal_states` (pager.rs 1583-1597). -/
def reset_internal_states (s : PagerS) : PagerS :=
  { s with
    checkpointState := .checkpoint,
    checkpointInflight := 0,
    syncing := false,
    flushInfo := { state := .start, inFlightWrites := 0, dirtyPages := [] },
    commitInfo := { state := .start, inFlightWrites := 0, dirtyPages := [] } }

/-- `Pager::rollback` (pager.rs 1562-1581).  The schema restoration acts
on the connection, not on the pager state, and is not modelled; WAL
rollback is recorded in the trace.  Returns `none` when `cache.clear()`
panics on a pinned page. -/
def rollback (_schemaDidChange : Bool) (s : PagerS) : Option PagerS :=
  let s1 := { s with dirtyPages := [] }
  let s2 := reset_internal_states s1
  let c1 := unset_dirty_all_pages s2.cache
  match cacheClear c1 with
  | none => none
  | some c2 => some { s2 with cache := c2, trace := .walRollback :: s2.trace }

/-! ## `Pager::ptrmap_get` -/

/-- `Pager::ptrmap_get` (pager.rs 443-512).  The async page-size header
accessor is modelled from the spec as the pager's cached page size
(`Done`). -/
def ptrmap_get (walHasFrame : Bool) (s : PagerS) (targetPageNum : Nat) :
    Except LimboError (IOResult (Option PtrmapEntry)) × PagerS :=
  let configuredPageSize := s.pageSizeCached
  if targetPageNum < FIRST_PTRMAP_PAGE_NO ∨
      is_ptrmap_page targetPageNum configuredPageSize then
    (.ok (.Done none), s)
  else
    let ptrmapPgNo := get_ptrmap_page_no_for_db_page targetPageNum configuredPageSize
    match get_ptrmap_offset_in_page targetPageNum ptrmapPgNo configuredPageSize with
    | .error e => (.error e, s)
    | .ok offsetInPtrmapPage =>
      let rp := read_page walHasFrame s ptrmapPgNo
      let ptrmapPage := rp.1
      let s1 := rp.2
      if ptrmapPage.flags.locked then (.ok .Io, s1)
      else if ¬ ptrmapPage.flags.loaded then (.ok .Io, s1)
      else
        match ptrmapPage.contents with
        | none => (.error (.InternalError "Ptrmap page content not loaded"), s1)
        | some pageContent =>
          if ptrmapPgNo ≠ 1 ∧ pageContent.offset ≠ 0 then
            (.error (.Corrupt "Ptrmap page has unexpected internal offset"), s1)
          else
            let dataSlice := pageContent.data.drop pageContent.offset
            let actualDataLength := dataSlice.length
            if actualDataLength < offsetInPtrmapPage + PTRMAP_ENTRY_SIZE then
              (.error (.InternalError "Ptrmap offset out of bounds for page"), s1)
            else
              let entrySlice :=
                (dataSlice.drop offsetInPtrmapPage).take PTRMAP_ENTRY_SIZE
              match PtrmapEntry.deserialize entrySlice with
              | some entry => (.ok (.Done (some entry)), s1)
              | none => (.error (.Corrupt "Failed to deserialize ptrmap entry"), s1)

/-! ## Commit / flush / checkpoint state machines -/

/-- Environment answers consumed by one arm of the commit, flush or
checkpoint machines: the in-flight counter value left by a scheduled WAL
append, the outcome of `wal.sync()`, `wal.should_checkpoint()`, the
outcome of `wal.checkpoint(...)` and the counter it leaves behind, and
whether the scheduled database fsync completes inline.  All of these are
owned by collaborators outside src/ and are therefore free inputs. -/
inductive SyncRes where
  | io
  | ok
  | err
  deriving DecidableEq, Repr

inductive WalCkptRes where
  | io
  | done (r : CheckpointResult)
  | err
  deriving DecidableEq, Repr

structure CEnv where
  inFlightAfterAppend : Nat
  syncRes : SyncRes
  shouldCheckpoint : Bool
  walCkptRes : WalCkptRes
  inflightAfterWalCkpt : Nat
  dbSyncCompletesInline : Bool

/-- Result of one call of `Pager::checkpoint`. -/
inductive CkRes where
  | io
  | done (r : CheckpointResult)
  | err
  | outOfFuel
  deriving DecidableEq, Repr

/-- Outcome of one arm of `Pager::checkpoint`'s loop. -/
inductive CkStep where
  | retIo (s : PagerS)
  | retErr (s : PagerS)
  | retDone (r : CheckpointResult) (s : PagerS)
  | next (cres : CheckpointResult) (s : PagerS)

/-- One arm of `Pager::checkpoint` (pager.rs 1183-1219), dispatched on
`checkpoint_state`; `cres` is the loop-local `checkpoint_result`
accumulator. -/
def checkpoint_arm (e : CEnv) (cres : CheckpointResult) (s : PagerS) :
    CkStep :=
  match s.checkpointState with
  | .checkpoint =>
    let sCk := { s with checkpointInflight := e.inflightAfterWalCkpt, trace := .checkpointInvoked :: s.trace }
    match e.walCkptRes with
    | .io => .retIo sCk
    | .err => .retErr sCk
    | .done r => .next r { sCk with checkpointState := .syncDbFile }
  | .syncDbFile =>
    .next cres
      { s with syncing := !e.dbSyncCompletesInline
               checkpointState := .waitSyncDbFile
               trace := .dbSyncBegin :: s.trace }
  | .waitSyncDbFile =>
    if s.syncing then .retIo s
    else .next cres { s with checkpointState := .checkpointDone }
  | .checkpointDone =>
    if 0 < s.checkpointInflight then .retIo s
    else .retDone cres { s with checkpointState := .checkpoint }

/-- `Pager::checkpoint` (pager.rs 1178-1221): loop over
`checkpoint_state`.  `envs k` answers the external queries of the k-th
arm; the returned index is the next unused one. -/
def checkpoint_loop (envs : Nat → CEnv) :
    Nat → Nat → CheckpointResult → PagerS → CkRes × Nat × PagerS
  | 0, k, _, s => (.outOfFuel, k, s)
  | fuel + 1, k, cres, s =>
    match checkpoint_arm (envs k) cres s with
    | .retIo s' => (.io, k + 1, s')
    | .retErr s' => (.err, k + 1, s')
    | .retDone r s' => (.done r, k + 1, s')
    | .next cres' s' => checkpoint_loop envs fuel (k + 1) cres' s'

/-- Result of one call of `Pager::commit_dirty_pages`. -/
inductive CallRes where
  | io
  | done (r : PagerCommitResult)
  | err
  | panicked
  | outOfFuel
  deriving DecidableEq, Repr

/-- Outcome of one arm of the commit loop.  `retDone` covers both the
early return for an empty dirty set (`Start`) and the two `break` sites:
the break arms record `finish_append_frames_commit` in the trace before
returning, the early return does not. -/
inductive CommitStep where
  | retIo (s : PagerS)
  | retErr (s : PagerS)
  | retDone (r : PagerCommitResult) (s : PagerS)
  | panic (s : PagerS)
  | next (s : PagerS)
  | enterCheckpoint

/-- The `CommitState::Start` arm (pager.rs 1006-1021). -/
def commit_start (s : PagerS) : CommitStep :=
  let dirty := s.dirtyPages
  if dirty.isEmpty then .retDone .WalWritten s
  else
    .next { s with commitInfo :=
      { s.commitInfo with dirtyPages := dirty, state := .appendFrame 0 } }

/-- The `CommitState::AppendFrame` arm (pager.rs 1023-1062): the frame of
the last snapshot entry carries the header database size, every other
frame carries 0. -/
def commit_append_frame (e : CEnv) (i : Nat) (s : PagerS) : CommitStep :=
  if hi : i < s.commitInfo.dirtyPages.length then
    let pageId := s.commitInfo.dirtyPages.get ⟨i, hi⟩
    let isLast := i = s.commitInfo.dirtyPages.length - 1
    match cacheGet s.cache pageId with
    | none => .panic s
    | some page =>
      match page.contents with
      | none => .panic s
      | some _ =>
        let dbSize := if isLast then s.header.databaseSize else 0
        let ci := { s.commitInfo with inFlightWrites := e.inFlightAfterAppend, state := .waitAppendFrame i }
        .next { s with trace := .append pageId dbSize :: s.trace, commitInfo := ci }
  else .panic s

/-- The `CommitState::WaitAppendFrame` arm (pager.rs 1063-1106): once the
in-flight counter drains, clear the page's DIRTY flag; after the last
frame clear the whole cache and the dirty set and move to `SyncWal`. -/
def commit_wait_append_frame (i : Nat) (s : PagerS) : CommitStep :=
  if 0 < s.commitInfo.inFlightWrites then .retIo s
  else if hi : i < s.commitInfo.dirtyPages.length then
    let pageId := s.commitInfo.dirtyPages.get ⟨i, hi⟩
    match cacheGet s.cache pageId with
    | none => .panic s
    | some page =>
      match page.contents with
      | none => .panic s
      | some _ =>
        let s1 := { s with cache := cacheUpdate s.cache pageId MPage.clearDirtyP }
        if i = s1.commitInfo.dirtyPages.length - 1 then
          match cacheClear s1.cache with
          | none => .panic s1
          | some c =>
            .next { s1 with cache := c
                            dirtyPages := []
                            commitInfo := { s1.commitInfo with state := .syncWal } }
        else
          .next { s1 with commitInfo :=
            { s1.commitInfo with state := .appendFrame (i + 1) } }
  else .panic s

/-- The `CommitState::SyncWal` arm (pager.rs 1107-1115): when the WAL
fsync succeeds and no checkpoint is due, break with `WalWritten` (the
loop-exit `finish_append_frames_commit` is recorded here). -/
def commit_sync_wal (d : Bool) (e : CEnv) (s : PagerS) : CommitStep :=
  match e.syncRes with
  | .io => .retIo s
  | .err => .retErr s
  | .ok =>
    if d ∨ ¬ e.shouldCheckpoint then
      .retDone .WalWritten
        { s with commitInfo := { s.commitInfo with state := .start }
                 trace := .finishCommit :: .syncOk :: s.trace }
    else
      .next { s with commitInfo := { s.commitInfo with state := .checkpoint }
                     trace := .syncOk :: s.trace }

/-- The `CommitState::SyncDbFile` arm (pager.rs 1120-1123). -/
def commit_sync_db_file (e : CEnv) (s : PagerS) : CommitStep :=
  .next { s with syncing := !e.dbSyncCompletesInline
                 commitInfo := { s.commitInfo with state := .waitSyncDbFile }
                 trace := .dbSyncBegin :: s.trace }

/-- The `CommitState::WaitSyncDbFile` arm (pager.rs 1124-1131) together
with the loop-exit `finish_append_frames_commit`. -/
def commit_wait_sync_db_file (cres : CheckpointResult) (s : PagerS) :
    CommitStep :=
  if s.syncing then .retIo s
  else
    .retDone (.Checkpointed cres)
      { s with commitInfo := { s.commitInfo with state := .start }
               trace := .finishCommit :: s.trace }

/-- One arm of the commit loop, dispatched on `commit_info.state`.  The
`Checkpoint` state runs the nested `Pager::checkpoint` loop and is
handled by `commit_loop` itself. -/
def commit_arm (d : Bool) (e : CEnv) (cres : CheckpointResult) (s : PagerS) :
    CommitStep :=
  match s.commitInfo.state with
  | .start => commit_start s
  | .appendFrame i => commit_append_frame e i s
  | .waitAppendFrame i => commit_wait_append_frame i s
  | .syncWal => commit_sync_wal d e s
  | .checkpoint => .enterCheckpoint
  | .syncDbFile => commit_sync_db_file e s
  | .waitSyncDbFile => commit_wait_sync_db_file cres s

/-- `Pager::commit_dirty_pages` (pager.rs 997-1137): the loop over
`commit_info.state`; on `break` the WAL `finish_append_frames_commit` is
signalled (recorded in the trace) before returning `Done`; the early
return for an empty dirty set skips it.  `d` is
`wal_checkpoint_disabled`. -/
def commit_loop (d : Bool) (envs : Nat → CEnv) :
    Nat → Nat → CheckpointResult → PagerS → CallRes × Nat × PagerS
  | 0, k, _, s => (.outOfFuel, k, s)
  | fuel + 1, k, cres, s =>
    match commit_arm d (envs k) cres s with
    | .retIo s' => (.io, k + 1, s')
    | .retErr s' => (.err, k + 1, s')
    | .retDone r s' => (.done r, k + 1, s')
    | .panic s' => (.panicked, k + 1, s')
    | .next s' => commit_loop d envs fuel (k + 1) cres s'
    | .enterCheckpoint =>
      match checkpoint_loop envs fuel k .dflt s with
      | (.io, kk, s') => (.io, kk, s')
      | (.err, kk, s') => (.err, kk, s')
      | (.outOfFuel, kk, s') => (.outOfFuel, kk, s')
      | (.done r, kk, s') =>
        commit_loop d envs fuel kk r
          { s' with commitInfo := { s'.commitInfo with state := .syncDbFile } }

/-- Result of one call of `Pager::cacheflush`. -/
inductive FlushRes where
  | io
  | done
  | panicked
  deriving DecidableEq, Repr

/-- The `CacheFlushState::Start` arm of `Pager::cacheflush` (pager.rs
907-924). -/
def flush_start (s : PagerS) : FlushRes × PagerS :=
  let dirty := s.dirtyPages
  if dirty.isEmpty then (.done, s)
  else
    (.io, { s with flushInfo :=
      { s.flushInfo with dirtyPages := dirty, state := .appendFrame 0 } })

/-- The `CacheFlushState::AppendFrame` arm (pager.rs 925-951): every
frame is appended with `db_size = 0`. -/
def flush_append_frame (e : CEnv) (i : Nat) (s : PagerS) : FlushRes × PagerS :=
  if hi : i < s.flushInfo.dirtyPages.length then
    let pageId := s.flushInfo.dirtyPages.get ⟨i, hi⟩
    match cacheGet s.cache pageId with
    | none => (.panicked, s)
    | some page =>
      match page.contents with
      | none => (.panicked, s)
      | some _ =>
        let fi := { s.flushInfo with inFlightWrites := e.inFlightAfterAppend, state := .waitAppendFrame i }
        (.io, { s with trace := .append pageId 0 :: s.trace, flushInfo := fi })
  else (.panicked, s)

/-- The `CacheFlushState::WaitAppendFrame` arm (pager.rs 952-988): after
the last frame only the dirty set is cleared — the cache is preserved. -/
def flush_wait_append_frame (i : Nat) (s : PagerS) : FlushRes × PagerS :=
  if 0 < s.flushInfo.inFlightWrites then (.io, s)
  else if hi : i < s.flushInfo.dirtyPages.length then
    let pageId := s.flushInfo.dirtyPages.get ⟨i, hi⟩
    match cacheGet s.cache pageId with
    | none => (.panicked, s)
    | some page =>
      match page.contents with
      | none => (.panicked, s)
      | some _ =>
        let s1 := { s with cache := cacheUpdate s.cache pageId MPage.clearDirtyP }
        if i = s1.flushInfo.dirtyPages.length - 1 then
          (.done, { s1 with dirtyPages := []
                            flushInfo := { s1.flushInfo with state := .start } })
        else
          (.io, { s1 with flushInfo := { s1.flushInfo with state := .appendFrame (i + 1) } })
  else (.panicked, s)

/-- `Pager::cacheflush` (pager.rs 903-990): a single arm of
`flush_info.state` per call (it contains no loop). -/
def cacheflush (e : CEnv) (s : PagerS) : FlushRes × PagerS :=
  match s.flushInfo.state with
  | .start => flush_start s
  | .appendFrame i => flush_append_frame e i s
  | .waitAppendFrame i => flush_wait_append_frame i s

/-! ## Multi-call executions

Between two calls the external I/O pump (`io.run_once`) may complete
scheduled work: it can only decrement in-flight counters and complete the
pending database fsync; it touches nothing else of the pager. -/

def io_pump (commitWrites flushWrites ckptWrites : Nat) (fsyncDone : Bool)
    (s : PagerS) : PagerS :=
  { s with
    commitInfo := { s.commitInfo with inFlightWrites := s.commitInfo.inFlightWrites - commitWrites }
    flushInfo := { s.flushInfo with inFlightWrites := s.flushInfo.inFlightWrites - flushWrites }
    checkpointInflight := s.checkpointInflight - ckptWrites
    syncing := s.syncing && !fsyncDone }

/-- Schedule of one call plus the pump activity after it. -/
structure CallSched where
  fuel : Nat
  envs : Nat → CEnv
  pumpCommitWrites : Nat
  pumpFlushWrites : Nat
  pumpCkptWrites : Nat
  pumpFsync : Bool

/-- Repeated `commit_dirty_pages` calls driven by the I/O pump, stopping
at the first result that is not `IO` (or reporting `io` when the schedule
ends with the commit still in progress). -/
def commit_run (d : Bool) : List CallSched → PagerS → CallRes × PagerS
  | [], s => (.io, s)
  | c :: rest, s =>
    match commit_loop d c.envs c.fuel 0 .dflt s with
    | (.io, _, s') =>
      commit_run d rest
        (io_pump c.pumpCommitWrites c.pumpFlushWrites c.pumpCkptWrites
          c.pumpFsync s')
    | (r, _, s') => (r, s')

/-- Repeated `cacheflush` calls driven by the I/O pump. -/
def flush_run : List CallSched → PagerS → FlushRes × PagerS
  | [], s => (.io, s)
  | c :: rest, s =>
    match cacheflush (c.envs 0) s with
    | (.io, s') =>
      flush_run rest
        (io_pump c.pumpCommitWrites c.pumpFlushWrites c.pumpCkptWrites
          c.pumpFsync s')
    | (r, s') => (r, s')

/-! ## Derived predicates used in claim statements -/

def resultIsCorrupt {α : Type} (r : Except LimboError α) : Bool :=
  match r with
  | .error e => e.isCorrupt
  | _ => false

/-- Every `finish_append_frames_commit` call in the (newest-first) trace
happened after some successful WAL sync. -/
def finishOrdered : List WalEvent → Prop
  | [] => True
  | e :: t => (e = .finishCommit → WalEvent.syncOk ∈ t) ∧ finishOrdered t

/-- Number of `finish_append_frames_commit` calls recorded in a trace. -/
def countFinish (t : List WalEvent) : Nat :=
  t.count .finishCommit

/-- The first `k` frames of an in-progress commit (all with db_size 0). -/
def midFrames (D : List Nat) (k : Nat) : List (Nat × Nat) :=
  (D.take k).map (fun p => (p, 0))

/-- The `(page_id, db_size)` frames a completed commit of snapshot `D`
appends, in chronological order: every frame except the last carries 0,
the last carries the header database size `n`. -/
def commitFrames (D : List Nat) (n : Nat) : List (Nat × Nat) :=
  midFrames D (D.length - 1) ++ (D.drop (D.length - 1)).map (fun p => (p, n))

/-- Clearing the DIRTY flag of the pages listed in `ids`, in order. -/
def cacheClearDirtyIds (c : List (Nat × MPage)) (ids : List Nat) :
    List (Nat × MPage) :=
  ids.foldl (fun acc id => cacheUpdate acc id MPage.clearDirtyP) c

/-- Invariant of an in-progress `cacheflush` over the snapshot `D`, the
trace `base` and the cache `c0` as they were when the flush started: the
frames of the first pages of the snapshot have been appended (db_size 0)
and exactly the already-waited pages have their DIRTY flag cleared. -/
def flushSnapshotInv (D : List Nat) (base : List WalEvent)
    (c0 : List (Nat × MPage)) (s : PagerS) : Prop :=
  s.dirtyPages = D ∧
  match s.flushInfo.state with
  | .start => s.trace = base ∧ s.cache = c0
  | .appendFrame i => s.flushInfo.dirtyPages = D ∧ i < D.length ∧
      s.trace = ((D.take i).map (fun p => WalEvent.append p 0)).reverse ++ base ∧
      s.cache = cacheClearDirtyIds c0 (D.take i)
  | .waitAppendFrame i => s.flushInfo.dirtyPages = D ∧ i < D.length ∧
      s.trace = ((D.take (i + 1)).map (fun p => WalEvent.append p 0)).reverse ++ base ∧
      s.cache = cacheClearDirtyIds c0 (D.take i)

/-- The state carried by a checkpoint-loop arm outcome. -/
def ckStepState : CkStep → PagerS
  | .retIo s => s
  | .retErr s => s
  | .retDone _ s => s
  | .next _ s => s

/-- Temporal invariant of the commit machine: every recorded
`finish_append_frames_commit` happened after a successful WAL sync, and
in the post-sync states (`Checkpoint`, `SyncDbFile`, `WaitSyncDbFile`) a
successful sync is already in the trace. -/
def commitC2Inv (s : PagerS) : Prop :=
  finishOrdered s.trace ∧
  ((s.commitInfo.state = CommitState.checkpoint ∨
    s.commitInfo.state = CommitState.syncDbFile ∨
    s.commitInfo.state = CommitState.waitSyncDbFile) →
    WalEvent.syncOk ∈ s.trace)

/-- What one commit arm guarantees from a state satisfying the temporal
invariant: the invariant again, an unchanged finish count except on the
`break` outcomes, and entry into the nested checkpoint loop only from the
`Checkpoint` state. -/
def commitStepC2 (base : PagerS) : CommitStep → Prop
  | .retIo s' => commitC2Inv s' ∧ countFinish s'.trace = countFinish base.trace
  | .retErr s' => commitC2Inv s' ∧ countFinish s'.trace = countFinish base.trace
  | .retDone _ s' => commitC2Inv s'
  | .panic s' => commitC2Inv s' ∧ countFinish s'.trace = countFinish base.trace
  | .next s' => commitC2Inv s' ∧ countFinish s'.trace = countFinish base.trace
  | .enterCheckpoint => base.commitInfo.state = CommitState.checkpoint

/-- Invariant of an in-progress `commit_dirty_pages` over the dirty
snapshot `D`, the header database size `n` and the appends `base` already
in the WAL when the commit started: the batch appends exactly the
snapshot's frames with `db_size = 0`, except the last, which carries
`n`. -/
def commitFramesInv (D : List Nat) (n : Nat) (base : List (Nat × Nat))
    (s : PagerS) : Prop :=
  s.header.databaseSize = n ∧
  match s.commitInfo.state with
  | .start => s.dirtyPages = D ∧ appendsOf s.trace = base
  | .appendFrame i => s.commitInfo.dirtyPages = D ∧ i < D.length ∧
      appendsOf s.trace = (midFrames D i).reverse ++ base
  | .waitAppendFrame i => s.commitInfo.dirtyPages = D ∧ i < D.length ∧
      appendsOf s.trace =
        (if i = D.length - 1 then (commitFrames D n).reverse
          else (midFrames D (i + 1)).reverse) ++ base
  | _ => appendsOf s.trace = (commitFrames D n).reverse ++ base

/-- What one commit arm guarantees for the frame-batch invariant. -/
def commitStepC1 (D : List Nat) (n : Nat) (base : List (Nat × Nat))
    (s0 : PagerS) : CommitStep → Prop
  | .retIo s' => commitFramesInv D n base s'
  | .retErr s' => commitFramesInv D n base s'
  | .retDone _ s' => appendsOf s'.trace = (commitFrames D n).reverse ++ base
  | .panic s' => commitFramesInv D n base s'
  | .next s' => commitFramesInv D n base s'
  | .enterCheckpoint => s0.commitInfo.state = CommitState.checkpoint

/-! ## Concrete fixtures used by witnesses and counterexamples -/

/-- A loaded, unlocked, unpinned page with the given id, dirty bit and
buffer. -/
def mkPage (i : Nat) (dirty : Bool) (data : List Nat) : MPage :=
  { id := i
    flags :=
      { uptodate := true, locked := false, error := false, dirty := dirty,
        loaded := true }
    pinCount := 0
    contents := some { offset := 0, data := data, overflowCells := 0 } }

/-- A small idle pager over a 4-page database. -/
def basePager : PagerS :=
  { header := { databaseSize := 4, freelistTrunkPage := 0, freelistPages := 0 }
    pageSizeCached := 512
    reservedSpace := 0
    cache := []
    dirtyPages := []
    commitInfo := { state := .start, inFlightWrites := 0, dirtyPages := [] }
    flushInfo := { state := .start, inFlightWrites := 0, dirtyPages := [] }
    checkpointState := .checkpoint
    checkpointInflight := 0
    syncing := false
    allocatePage1State := .done
    freePageState := .start
    trace := [] }

/-- An environment in which every scheduled write completes inline, WAL
sync succeeds, and no checkpoint is due. -/
def okEnv : CEnv :=
  { inFlightAfterAppend := 0
    syncRes := .ok
    shouldCheckpoint := false
    walCkptRes := .done ⟨0, 0⟩
    inflightAfterWalCkpt := 0
    dbSyncCompletesInline := true }

/-- A pager caught in the middle of a suspended `free_page` call. -/
def rollbackCex : PagerS := { basePager with freePageState := .newTrunk 3 }

/-- A call schedule in which every external interaction completes
inline. -/
def okSched : CallSched :=
  { fuel := 16, envs := fun _ => okEnv, pumpCommitWrites := 0
    pumpFlushWrites := 0, pumpCkptWrites := 0, pumpFsync := false }

/-- A pager with two dirty cached pages 3 and 4. -/
def dirtyTwoPager : PagerS :=
  { basePager with
    cache := [(3, mkPage 3 true (List.replicate 16 0)),
              (4, mkPage 4 true (List.replicate 16 0))]
    dirtyPages := [3, 4] }

/-- A pager whose first ptrmap page is cached with a 3-byte buffer. -/
def ptrmapCexState : PagerS :=
  { basePager with cache := [(2, mkPage 2 false [1, 2, 3])] }

/-- A pager with trunk page 3 (no leaves yet) and a freeable page 4. -/
def freePageStateA : PagerS :=
  { basePager with
    header := { databaseSize := 4, freelistTrunkPage := 3, freelistPages := 7 }
    cache := [(3, mkPage 3 false (List.replicate 16 0)),
              (4, mkPage 4 false (List.replicate 16 0))] }

/-- A trunk page image holding exactly 126 = 512/4 − 2 leaves. -/
def trunkFullData : List Nat := [0, 0, 0, 0, 0, 0, 0, 126]

/-- A pager whose trunk page 3 is full, and a freeable page 4. -/
def freePageStateB : PagerS :=
  { basePager with
    header := { databaseSize := 4, freelistTrunkPage := 3, freelistPages := 7 }
    cache := [(3, mkPage 3 false trunkFullData),
              (4, mkPage 4 false (List.replicate 8 0))] }

/-- A pager whose first ptrmap page stores an invalid entry type byte 0. -/
def ptrmapBadTypeState : PagerS :=
  { basePager with cache := [(2, mkPage 2 false [0, 0, 0, 0, 0])] }

/-- A pager whose first ptrmap page is LOADED but has no contents. -/
def ptrmapNoContentsState : PagerS :=
  { basePager with cache :=
      [(2, { id := 2
             flags :=
               { uptodate := true, locked := false, error := false,
                 dirty := false, loaded := true }
             pinCount := 0
             contents := none })] }

/-! ## Byte-level helper lemmas -/

theorem byteAt_set_self (l : List Nat) (i v : Nat) (h : i < l.length) :
    byteAt (l.set i v) i = v := by
  simp [byteAt, List.getElem?_set_eq_of_lt, h]

theorem byteAt_set_ne (l : List Nat) (i j v : Nat) (h : i ≠ j) :
    byteAt (l.set i v) j = byteAt l j := by
  simp [byteAt, List.getElem?_set, h]

theorem byteAt_writeU32_ne (data : List Nat) (off v j : Nat)
    (h : j < off ∨ off + 3 < j) :
    byteAt (writeU32 data off v) j = byteAt data j := by
  unfold writeU32
  rw [byteAt_set_ne _ _ _ _ (by omega), byteAt_set_ne _ _ _ _ (by omega),
    byteAt_set_ne _ _ _ _ (by omega), byteAt_set_ne _ _ _ _ (by omega)]

theorem writeU32_length (data : List Nat) (off v : Nat) :
    (writeU32 data off v).length = data.length := by
  simp [writeU32]

theorem readU32_writeU32_self (data : List Nat) (off v : Nat)
    (h : off + 4 ≤ data.length) (hv : v < 2 ^ 32) :
    readU32 (writeU32 data off v) off = v := by
  have h0 : byteAt (writeU32 data off v) off = v / 2 ^ 24 % 256 := by
    unfold writeU32
    rw [byteAt_set_ne _ _ _ _ (by omega), byteAt_set_ne _ _ _ _ (by omega),
      byteAt_set_ne _ _ _ _ (by omega), byteAt_set_self _ _ _ (by omega)]
  have h1 : byteAt (writeU32 data off v) (off + 1) = v / 2 ^ 16 % 256 := by
    unfold writeU32
    rw [byteAt_set_ne _ _ _ _ (by omega), byteAt_set_ne _ _ _ _ (by omega),
      byteAt_set_self _ _ _ (by rw [List.length_set]; omega)]
  have h2 : byteAt (writeU32 data off v) (off + 2) = v / 2 ^ 8 % 256 := by
    unfold writeU32
    rw [byteAt_set_ne _ _ _ _ (by omega),
      byteAt_set_self _ _ _ (by rw [List.length_set, List.length_set]; omega)]
  have h3 : byteAt (writeU32 data off v) (off + 3) = v % 256 := by
    unfold writeU32
    rw [byteAt_set_self _ _ _
      (by rw [List.length_set, List.length_set, List.length_set]; omega)]
  unfold readU32
  rw [h0, h1, h2, h3]
  omega

theorem readU32_writeU32_other (data : List Nat) (off off' v : Nat)
    (h : off' + 4 ≤ off ∨ off + 4 ≤ off') :
    readU32 (writeU32 data off v) off' = readU32 data off' := by
  unfold readU32
  rw [byteAt_writeU32_ne _ _ _ _ (by omega), byteAt_writeU32_ne _ _ _ _ (by omega),
    byteAt_writeU32_ne _ _ _ _ (by omega), byteAt_writeU32_ne _ _ _ _ (by omega)]

theorem writeU32At_offset (c : PContents) (pos v : Nat) :
    (c.writeU32At pos v).offset = c.offset := rfl

theorem readU32At_writeU32At_self (c : PContents) (pos v : Nat)
    (h : c.offset + pos + 4 ≤ c.data.length) (hv : v < 2 ^ 32) :
    (c.writeU32At pos v).readU32At pos = v := by
  simp only [PContents.readU32At, PContents.writeU32At]
  exact readU32_writeU32_self _ _ _ h hv

theorem readU32At_writeU32At_other (c : PContents) (pos pos' v : Nat)
    (h : pos' + 4 ≤ pos ∨ pos + 4 ≤ pos') :
    (c.writeU32At pos v).readU32At pos' = c.readU32At pos' := by
  simp only [PContents.readU32At, PContents.writeU32At]
  exact readU32_writeU32_other _ _ _ _ (by omega)

theorem writeU32At_length (c : PContents) (pos v : Nat) :
    (c.writeU32At pos v).data.length = c.data.length := by
  simp [PContents.writeU32At, writeU32_length]

/-! ## Cache lookup/update lemmas -/

theorem cacheGet_cacheUpdate (c : List (Nat × MPage)) (tid id : Nat)
    (f : MPage → MPage) :
    cacheGet (cacheUpdate c tid f) id =
      if tid = id then (cacheGet c id).map f else cacheGet c id := by
  induction c with
  | nil =>
    by_cases htid : tid = id <;> simp [cacheGet, cacheUpdate, htid]
  | cons e rest ih =>
    simp only [cacheUpdate, List.map_cons] at ih ⊢
    by_cases h1 : e.1 = tid
    · by_cases h2 : tid = id
      · have h3 : e.1 = id := h1.trans h2
        simp [cacheGet, h1, h2, h3]
      · have h3 : ¬ (e.1 = id) := fun hh => h2 (h1.symm.trans hh)
        simp [cacheGet, h1, h2, h3, ih]
    · by_cases h2 : e.1 = id
      · have h3 : ¬ (tid = id) := fun hh => h1 (h2.trans hh.symm)
        have h4 : ¬ (id = tid) := fun hh => h3 hh.symm
        simp [cacheGet, h1, h2, h3, h4]
      · simp [cacheGet, h1, h2, ih]

theorem cacheIds_cacheUpdate (c : List (Nat × MPage)) (id : Nat)
    (f : MPage → MPage) :
    cacheIds (cacheUpdate c id f) = cacheIds c := by
  induction c with
  | nil => rfl
  | cons e rest ih =>
    have hh : (if e.1 = id then (e.1, f e.2) else e).1 = e.1 := by
      split <;> rfl
    simp only [cacheUpdate, List.map_cons, cacheIds] at ih ⊢
    rw [hh, ih]

theorem clearDirtyP_idem (p : MPage) :
    p.clearDirtyP.clearDirtyP = p.clearDirtyP := rfl

/-! ## Claim C6: pointer-map arithmetic -/

/-- C6: for every page size `ps ≥ 512` and query page `q ≥ 2`,
`get_ptrmap_page_no_for_db_page q ps = ((q−2)/G)·G + 2` with
`G = ps/5 + 1`; for a `q` mapped by its ptrmap page `P`
(`P+1 ≤ q ≤ P + ps/5`, `q` not itself a ptrmap page),
`get_ptrmap_offset_in_page q P ps` returns `(q − P − 1)·5`; and the
`ps = 512` instances: page-no(5) = 2, offset(5,2) = 10,
page-no(106) = 105, offset(108,105) = 10. -/
theorem C6_ptrmap_arithmetic :
    (∀ ps q, 512 ≤ ps → 2 ≤ q →
      get_ptrmap_page_no_for_db_page q ps =
        (q - 2) / (ps / 5 + 1) * (ps / 5 + 1) + 2)
    ∧ (∀ ps q P, 512 ≤ ps → P + 1 ≤ q → q ≤ P + ps / 5 →
        is_ptrmap_page q ps = false →
        get_ptrmap_offset_in_page q P ps = .ok ((q - P - 1) * 5))
    ∧ get_ptrmap_page_no_for_db_page 5 512 = 2
    ∧ get_ptrmap_offset_in_page 5 2 512 = .ok 10
    ∧ get_ptrmap_page_no_for_db_page 106 512 = 105
    ∧ get_ptrmap_offset_in_page 108 105 512 = .ok 10 := by
  refine ⟨?_, ?_, by decide, by rfl, by decide, by rfl⟩
  · intro ps q hps _hq
    have hg : ¬ (ptrmap_page_cycle_length ps = 0) := by
      simp [ptrmap_page_cycle_length]
    simp [get_ptrmap_page_no_for_db_page, hg, ptrmap_page_cycle_length,
      FIRST_PTRMAP_PAGE_NO, PTRMAP_ENTRY_SIZE]
  · intro ps q P _hps h1 h2 hnp
    have hcond : ¬ (q < P + 1 ∨ P + entries_per_ptrmap_page ps < q) := by
      simp [entries_per_ptrmap_page, PTRMAP_ENTRY_SIZE]
      omega
    simp [get_ptrmap_offset_in_page, hcond, hnp, PTRMAP_ENTRY_SIZE]
    omega

/-- Witness for C6 at `ps = 512`, `q = 5`, `P = 2`. -/
theorem C6_ptrmap_arithmetic_witness :
    get_ptrmap_page_no_for_db_page 5 512 = (5 - 2) / (512 / 5 + 1) * (512 / 5 + 1) + 2
    ∧ get_ptrmap_offset_in_page 5 2 512 = .ok ((5 - 2 - 1) * 5) :=
  ⟨C6_ptrmap_arithmetic.1 512 5 (by decide) (by decide),
   C6_ptrmap_arithmetic.2.1 512 5 2 (by decide) (by decide) (by decide) (by decide)⟩

/-! ## Claim C9: ptrmap entry serialize/deserialize round trip -/

/-- C9: for every `PtrmapEntry` `e` (with its parent page number a valid
u32) and every buffer of length ≥ 5, `e.serialize` succeeds and
`deserialize` of the result returns `some e`. -/
theorem C9_serialize_deserialize_id (e : PtrmapEntry) (buffer : List Nat)
    (hlen : 5 ≤ buffer.length) (hp : e.parentPageNo < 2 ^ 32) :
    ∃ out, e.serialize buffer = .ok out ∧ PtrmapEntry.deserialize out = some e := by
  obtain ⟨t, p⟩ := e
  have hp' : p < 2 ^ 32 := hp
  have hnot : ¬ (buffer.length < PTRMAP_ENTRY_SIZE) := by
    simp only [PTRMAP_ENTRY_SIZE]; omega
  refine ⟨((((buffer.set 0 (PtrmapType.toU8 t)).set 1 (p / 2 ^ 24 % 256)).set 2
      (p / 2 ^ 16 % 256)).set 3 (p / 2 ^ 8 % 256)).set 4 (p % 256), ?_, ?_⟩
  · simp [PtrmapEntry.serialize, hnot]
  · have hLen : (((((buffer.set 0 (PtrmapType.toU8 t)).set 1 (p / 2 ^ 24 % 256)).set 2
        (p / 2 ^ 16 % 256)).set 3 (p / 2 ^ 8 % 256)).set 4 (p % 256)).length =
        buffer.length := by simp
    have e0 : byteAt (((((buffer.set 0 (PtrmapType.toU8 t)).set 1 (p / 2 ^ 24 % 256)).set 2
        (p / 2 ^ 16 % 256)).set 3 (p / 2 ^ 8 % 256)).set 4 (p % 256)) 0 =
        PtrmapType.toU8 t := by
      rw [byteAt_set_ne _ _ _ _ (by omega), byteAt_set_ne _ _ _ _ (by omega),
        byteAt_set_ne _ _ _ _ (by omega), byteAt_set_ne _ _ _ _ (by omega),
        byteAt_set_self _ _ _ (by omega)]
    have e1 : byteAt (((((buffer.set 0 (PtrmapType.toU8 t)).set 1 (p / 2 ^ 24 % 256)).set 2
        (p / 2 ^ 16 % 256)).set 3 (p / 2 ^ 8 % 256)).set 4 (p % 256)) 1 =
        p / 2 ^ 24 % 256 := by
      rw [byteAt_set_ne _ _ _ _ (by omega), byteAt_set_ne _ _ _ _ (by omega),
        byteAt_set_ne _ _ _ _ (by omega), byteAt_set_self _ _ _ (by simp; omega)]
    have e2 : byteAt (((((buffer.set 0 (PtrmapType.toU8 t)).set 1 (p / 2 ^ 24 % 256)).set 2
        (p / 2 ^ 16 % 256)).set 3 (p / 2 ^ 8 % 256)).set 4 (p % 256)) 2 =
        p / 2 ^ 16 % 256 := by
      rw [byteAt_set_ne _ _ _ _ (by omega), byteAt_set_ne _ _ _ _ (by omega),
        byteAt_set_self _ _ _ (by simp; omega)]
    have e3 : byteAt (((((buffer.set 0 (PtrmapType.toU8 t)).set 1 (p / 2 ^ 24 % 256)).set 2
        (p / 2 ^ 16 % 256)).set 3 (p / 2 ^ 8 % 256)).set 4 (p % 256)) 3 =
        p / 2 ^ 8 % 256 := by
      rw [byteAt_set_ne _ _ _ _ (by omega),
        byteAt_set_self _ _ _ (by simp; omega)]
    have e4 : byteAt (((((buffer.set 0 (PtrmapType.toU8 t)).set 1 (p / 2 ^ 24 % 256)).set 2
        (p / 2 ^ 16 % 256)).set 3 (p / 2 ^ 8 % 256)).set 4 (p % 256)) 4 =
        p % 256 := by
      rw [byteAt_set_self _ _ _ (by simp; omega)]
    unfold PtrmapEntry.deserialize
    rw [if_neg (by rw [hLen]; exact hnot)]
    simp only [e0, e1, e2, e3, e4]
    have hval : ((p / 2 ^ 24 % 256 * 256 + p / 2 ^ 16 % 256) * 256
        + p / 2 ^ 8 % 256) * 256 + p % 256 = p := by omega
    rw [hval]
    cases t <;> rfl

/-- Witness for C9 at a concrete entry and a 6-byte buffer. -/
theorem C9_serialize_deserialize_id_witness :
    ∃ out, PtrmapEntry.serialize ⟨.Overflow2, 305419896⟩ [9, 9, 9, 9, 9, 9] = .ok out
      ∧ PtrmapEntry.deserialize out = some ⟨.Overflow2, 305419896⟩ :=
  C9_serialize_deserialize_id ⟨.Overflow2, 305419896⟩ [9, 9, 9, 9, 9, 9]
    (by decide) (by decide)

/-! ## Claim C10: commit with an empty dirty set is a no-op -/

/-- C10: entering `commit_dirty_pages` in the `Start` state with an empty
dirty set returns `Done(WalWritten)` immediately and leaves the pager
state (WAL trace, cache, FSMs) completely unchanged; in particular no
frame is appended, nothing is synced or checkpointed, and
`finish_append_frames_commit` is not signalled. -/
theorem C10_commit_empty_dirty_noop (d : Bool) (envs : Nat → CEnv)
    (fuel k : Nat) (cres : CheckpointResult) (s : PagerS)
    (hstate : s.commitInfo.state = .start) (hdirty : s.dirtyPages = []) :
    commit_loop d envs (fuel + 1) k cres s = (.done .WalWritten, k + 1, s) := by
  simp [commit_loop, commit_arm, commit_start, hstate, hdirty]

/-- Witness for C10 on the concrete idle pager. -/
theorem C10_commit_empty_dirty_noop_witness :
    commit_loop false (fun _ => okEnv) 8 0 .dflt basePager =
      (.done .WalWritten, 1, basePager) :=
  C10_commit_empty_dirty_noop false (fun _ => okEnv) 7 0 .dflt basePager rfl rfl

/-! ## Claim C5: free_page rejects out-of-range page ids -/

/-- C5: for `page_id < 2` or `page_id >` the header database size,
`free_page` (entered in its `Start` state) fails with `Corrupt` and the
pager state is completely unmodified. -/
theorem C5_free_page_invalid_id (walHit : Nat → Bool)
    (pageParam : Option Nat) (pageId : Nat) (s : PagerS)
    (hstate : s.freePageState = .start)
    (hbad : pageId < 2 ∨ s.header.databaseSize < pageId) :
    free_page walHit pageParam pageId s =
      (.err (.Corrupt "Invalid page number for free operation"), s) := by
  show free_page_loop walHit pageParam pageId (3 + 1) 0 s = _
  simp [free_page_loop, free_page_arm, hstate, free_page_start, hbad]

/-- Witness for C5 at `page_id = 1` and `page_id = database_size + 1`. -/
theorem C5_free_page_invalid_id_witness :
    free_page (fun _ => false) none 1 basePager =
      (.err (.Corrupt "Invalid page number for free operation"), basePager)
    ∧ free_page (fun _ => false) none 5 basePager =
      (.err (.Corrupt "Invalid page number for free operation"), basePager) :=
  ⟨C5_free_page_invalid_id (fun _ => false) none 1 basePager rfl
      (Or.inl (by decide)),
   C5_free_page_invalid_id (fun _ => false) none 5 basePager rfl
      (Or.inr (by decide))⟩

/-! ## Claim C3: rollback resets -/

/-- C3 counterexample: `rollback` does not reset the free-page FSM — a
pager suspended in `free_page`'s `NewTrunk` state keeps that state across
a successful rollback, so not every resumable FSM field is reset to
Start. -/
theorem C3_counterexample :
    ∃ s', rollback false rollbackCex = some s'
      ∧ s'.freePageState = .newTrunk 3 ∧ s'.freePageState ≠ .start :=
  ⟨_, rfl, rfl, by decide⟩

/-- C3 amended: after `rollback` returns `Ok`, the dirty set is empty, the
cache is empty, the commit and flush FSMs are back at `Start` and the
checkpoint FSM is back at its initial `Checkpoint` state; the
allocate-page-1 and free-page FSM fields are left untouched. -/
theorem C3_rollback_amended (sdc : Bool) (s s' : PagerS)
    (h : rollback sdc s = some s') :
    s'.dirtyPages = [] ∧ s'.cache = [] ∧ s'.commitInfo.state = .start
    ∧ s'.flushInfo.state = .start ∧ s'.checkpointState = .checkpoint
    ∧ s'.freePageState = s.freePageState
    ∧ s'.allocatePage1State = s.allocatePage1State := by
  by_cases hpin :
      (unset_dirty_all_pages
        (reset_internal_states { s with dirtyPages := [] }).cache).all
        (fun e => e.2.pinCount = 0)
  · simp only [rollback, cacheClear, hpin, if_true, Option.some.injEq] at h
    subst h
    simp [reset_internal_states]
  · simp only [rollback, cacheClear, hpin, if_false] at h
    exact absurd h (by simp)

/-- Witness for C3 amended on the concrete mid-free-page pager. -/
theorem C3_rollback_amended_witness :
    ∃ s', rollback false rollbackCex = some s' ∧ s'.cache = [] := by
  have hs : rollback false rollbackCex =
      some ((rollback false rollbackCex).getD basePager) := rfl
  exact ⟨_, hs, (C3_rollback_amended false rollbackCex _ hs).2.1⟩

/-! ## Claim C4: free_page trunk behaviour -/

/-- The `Start` arm under a valid id, a cached freed page, and a
non-empty free list: bump `freelist_pages` and move to `AddToTrunk`. -/
theorem free_page_start_step (walHit : Bool) (pageId : Nat) (s : PagerS)
    (pg : MPage)
    (hstate : s.freePageState = .start)
    (hlo : 2 ≤ pageId) (hhi : pageId ≤ s.header.databaseSize)
    (hT0 : s.header.freelistTrunkPage ≠ 0)
    (hpg : cacheGet s.cache pageId = some pg) :
    free_page_arm walHit none pageId s =
      .next { s with
              header := { s.header with freelistPages := s.header.freelistPages + 1 }
              freePageState := .addToTrunk pageId none } := by
  simp only [free_page_arm, hstate, free_page_start, read_page, hpg]
  rw [if_neg (by omega)]
  simp [hT0]

/-- The `AddToTrunk` arm when the loaded trunk has room
(`L < usable_space/4 − 2`): the trunk is dirtied, its leaf count becomes
`L+1`, the freed page id lands at byte offset `8 + 4L`, and UPTODATE is
cleared on the freed page. -/
theorem free_page_add_leaf_step (walHit : Bool) (pageId T L : Nat)
    (s : PagerS) (trunkPg pg : MPage) (tc : PContents)
    (hstate : s.freePageState = .addToTrunk pageId none)
    (hT : s.header.freelistTrunkPage = T) (hTne : T ≠ pageId)
    (htr : cacheGet s.cache T = some trunkPg)
    (htid : trunkPg.id = T)
    (hlk : trunkPg.flags.locked = false) (hld : trunkPg.flags.loaded = true)
    (htc : trunkPg.contents = some tc) (hoffz : tc.offset = 0)
    (hL : tc.readU32At 4 = L)
    (hLmax : L < usable_space s / 4 - 2)
    (hlen : 8 + L * 4 + 4 ≤ tc.data.length)
    (hL32 : L + 1 < 2 ^ 32) (hp32 : pageId < 2 ^ 32)
    (hpg : cacheGet s.cache pageId = some pg) :
    ∃ sF, free_page_arm walHit none pageId s = .ret .done sF
      ∧ sF.freePageState = .start
      ∧ (∃ trunkPg' tc', cacheGet sF.cache T = some trunkPg'
          ∧ trunkPg'.flags.dirty = true
          ∧ trunkPg'.contents = some tc'
          ∧ tc'.readU32At 4 = L + 1
          ∧ tc'.readU32At (8 + L * 4) = pageId)
      ∧ (∃ pg', cacheGet sF.cache pageId = some pg'
          ∧ pg'.flags.uptodate = false ∧ pg'.flags.dirty = pg.flags.dirty)
      ∧ T ∈ sF.dirtyPages
      ∧ sF.header = s.header := by
  have hTne' : ¬ (pageId = T) := fun hh => hTne hh.symm
  simp only [free_page_arm, hstate, free_page_add_to_trunk, hT, read_page,
    htr, htid, hlk, hld, htc, hL, add_dirty, usable_space]
  rw [if_neg (by simp)]
  rw [if_pos (by simpa [usable_space] using hLmax)]
  rw [if_pos trivial]
  refine ⟨_, rfl, rfl, ?_, ?_, ?_, rfl⟩
  · simp [cacheGet_cacheUpdate, hTne, hTne', htr, htc, MPage.setDirtyP]
    constructor
    · rw [readU32At_writeU32At_other _ _ _ _ (by omega)]
      exact readU32At_writeU32At_self _ _ _ (by omega) hL32
    · exact readU32At_writeU32At_self _ _ _
        (by simp [PContents.writeU32At, writeU32_length, hoffz]; omega) hp32
  · simp [cacheGet_cacheUpdate, hTne, hTne', hpg, MPage.clearUptodateP]
  · by_cases hmem : T ∈ s.dirtyPages <;> simp [hmem]

/-- The `AddToTrunk` arm when the trunk holds exactly
`usable_space/4 − 2` leaves: fall through to `NewTrunk`. -/
theorem free_page_trunk_full_step (walHit : Bool) (pageId T L : Nat)
    (s : PagerS) (trunkPg : MPage) (tc : PContents)
    (hstate : s.freePageState = .addToTrunk pageId none)
    (hT : s.header.freelistTrunkPage = T)
    (htr : cacheGet s.cache T = some trunkPg)
    (htid : trunkPg.id = T)
    (hlk : trunkPg.flags.locked = false) (hld : trunkPg.flags.loaded = true)
    (htc : trunkPg.contents = some tc)
    (hL : tc.readU32At 4 = L)
    (hLmax : L = usable_space s / 4 - 2) :
    free_page_arm walHit none pageId s =
      .next { s with freePageState := .newTrunk pageId } := by
  simp only [free_page_arm, hstate, free_page_add_to_trunk, hT, read_page,
    htr, htid, hlk, hld, htc, hL]
  rw [if_neg (by simp)]
  rw [if_neg (by have := hLmax; simp only [usable_space] at this ⊢; omega)]

/-- The `NewTrunk` arm on a loaded freed page: the freed page becomes the
new trunk (next-trunk pointer = old trunk id, leaf count 0), the header
`freelist_trunk_page` now names the freed page, and the freed page is
dirtied with UPTODATE cleared. -/
theorem free_page_new_trunk_step (walHit : Bool) (pageId T : Nat)
    (s : PagerS) (pg : MPage) (pc : PContents)
    (hstate : s.freePageState = .newTrunk pageId)
    (hT : s.header.freelistTrunkPage = T)
    (hpg : cacheGet s.cache pageId = some pg)
    (hpid : pg.id = pageId)
    (hlk : pg.flags.locked = false) (hld : pg.flags.loaded = true)
    (hpc : pg.contents = some pc) (hoffz : pc.offset = 0)
    (hlen : 8 ≤ pc.data.length)
    (hT32 : T < 2 ^ 32) :
    ∃ sF, free_page_arm walHit none pageId s = .ret .done sF
      ∧ sF.freePageState = .start
      ∧ (∃ pg' pc', cacheGet sF.cache pageId = some pg'
          ∧ pg'.flags.dirty = true ∧ pg'.flags.uptodate = false
          ∧ pg'.contents = some pc'
          ∧ pc'.readU32At 0 = T
          ∧ pc'.readU32At 4 = 0)
      ∧ sF.header.freelistTrunkPage = pageId
      ∧ sF.header.databaseSize = s.header.databaseSize
      ∧ sF.header.freelistPages = s.header.freelistPages
      ∧ pageId ∈ sF.dirtyPages := by
  simp only [free_page_arm, hstate, free_page_new_trunk, hpg, hpid, hlk, hld,
    add_dirty, cacheGet_cacheUpdate, hT]
  rw [if_neg (by simp)]
  rw [if_pos trivial]
  simp only [if_true, Option.map_some', Option.some_bind, MPage.setDirtyP, hpc]
  refine ⟨_, rfl, rfl, ?_, rfl, rfl, rfl, ?_⟩
  · simp [cacheGet_cacheUpdate, hpg, hpc, MPage.clearUptodateP, MPage.setDirtyP]
    constructor
    · rw [readU32At_writeU32At_other _ _ _ _ (by omega)]
      exact readU32At_writeU32At_self _ _ _ (by omega) hT32
    · exact readU32At_writeU32At_self _ _ _
        (by simp [PContents.writeU32At, writeU32_length, hoffz]; omega)
        (by norm_num)
  · by_cases hmem : pageId ∈ s.dirtyPages <;> simp [hmem]

/-- One `.next` arm of the `free_page` loop. -/
theorem free_page_loop_next (walHit : Nat → Bool) (pp : Option Nat)
    (pageId fuel k : Nat) (s s' : PagerS)
    (h : free_page_arm (walHit k) pp pageId s = .next s') :
    free_page_loop walHit pp pageId (fuel + 1) k s =
      free_page_loop walHit pp pageId fuel (k + 1) s' := by
  simp [free_page_loop, h]

/-- One `.ret` arm of the `free_page` loop. -/
theorem free_page_loop_ret (walHit : Nat → Bool) (pp : Option Nat)
    (pageId fuel k : Nat) (s s' : PagerS) (r : FPOut)
    (h : free_page_arm (walHit k) pp pageId s = .ret r s') :
    free_page_loop walHit pp pageId (fuel + 1) k s = (r, s') := by
  simp [free_page_loop, h]

/-- C4: in `free_page`, when the current trunk holds `L` leaves with
`L < usable_space/4 − 2`, the trunk is marked dirty, its leaf count
becomes `L+1`, the freed page id is written at byte offset `8 + 4L` of the
trunk, and UPTODATE is cleared on the freed page; when `L` equals exactly
`usable_space/4 − 2`, the freed page instead becomes a new trunk whose
next-trunk pointer is the old trunk id and whose leaf count is 0, and the
header `freelist_trunk_page` is set to the freed page id. -/
theorem C4_free_page_trunk :
    (∀ (walHit : Nat → Bool) (pageId T L : Nat) (s : PagerS)
        (trunkPg pg : MPage) (tc : PContents),
      s.freePageState = .start →
      2 ≤ pageId → pageId ≤ s.header.databaseSize →
      s.header.freelistTrunkPage = T → T ≠ 0 → T ≠ pageId →
      cacheGet s.cache pageId = some pg →
      cacheGet s.cache T = some trunkPg → trunkPg.id = T →
      trunkPg.flags.locked = false → trunkPg.flags.loaded = true →
      trunkPg.contents = some tc → tc.offset = 0 →
      tc.readU32At 4 = L → L < usable_space s / 4 - 2 →
      8 + L * 4 + 4 ≤ tc.data.length → L + 1 < 2 ^ 32 → pageId < 2 ^ 32 →
      ∃ s', free_page walHit none pageId s = (.done, s')
        ∧ s'.freePageState = .start
        ∧ (∃ trunkPg' tc', cacheGet s'.cache T = some trunkPg'
            ∧ trunkPg'.flags.dirty = true ∧ trunkPg'.contents = some tc'
            ∧ tc'.readU32At 4 = L + 1
            ∧ tc'.readU32At (8 + L * 4) = pageId)
        ∧ (∃ pg', cacheGet s'.cache pageId = some pg'
            ∧ pg'.flags.uptodate = false)
        ∧ T ∈ s'.dirtyPages)
    ∧ (∀ (walHit : Nat → Bool) (pageId T L : Nat) (s : PagerS)
        (trunkPg pg : MPage) (tc pc : PContents),
      s.freePageState = .start →
      2 ≤ pageId → pageId ≤ s.header.databaseSize →
      s.header.freelistTrunkPage = T → T ≠ 0 →
      cacheGet s.cache pageId = some pg → pg.id = pageId →
      pg.flags.locked = false → pg.flags.loaded = true →
      pg.contents = some pc → pc.offset = 0 → 8 ≤ pc.data.length →
      cacheGet s.cache T = some trunkPg → trunkPg.id = T →
      trunkPg.flags.locked = false → trunkPg.flags.loaded = true →
      trunkPg.contents = some tc →
      tc.readU32At 4 = L → L = usable_space s / 4 - 2 → T < 2 ^ 32 →
      ∃ s', free_page walHit none pageId s = (.done, s')
        ∧ s'.freePageState = .start
        ∧ (∃ pg' pc', cacheGet s'.cache pageId = some pg'
            ∧ pg'.flags.dirty = true ∧ pg'.flags.uptodate = false
            ∧ pg'.contents = some pc'
            ∧ pc'.readU32At 0 = T ∧ pc'.readU32At 4 = 0)
        ∧ s'.header.freelistTrunkPage = pageId
        ∧ pageId ∈ s'.dirtyPages) := by
  constructor
  · intro walHit pageId T L s trunkPg pg tc hstate hlo hhi hT hT0 hTne hpg
      htr htid hlk hld htc hoffz hL hLmax hlen hL32 hp32
    have h1 := free_page_start_step (walHit 0) pageId s pg hstate hlo hhi
      (by rw [hT]; exact hT0) hpg
    obtain ⟨sF, h2, hfs, htrunk, hpgf, hdirty, _⟩ :=
      free_page_add_leaf_step (walHit 1) pageId T L
        { s with header := { s.header with freelistPages := s.header.freelistPages + 1 }
                 freePageState := .addToTrunk pageId none }
        trunkPg pg tc rfl hT hTne htr htid hlk hld htc hoffz hL hLmax hlen
        hL32 hp32 hpg
    refine ⟨sF, ?_, hfs, htrunk, ?_, hdirty⟩
    · show free_page_loop walHit none pageId (3 + 1) 0 s = _
      rw [free_page_loop_next _ _ _ _ _ _ _ h1]
      exact free_page_loop_ret _ _ _ _ _ _ _ _ h2
    · obtain ⟨pg', hg, hu, _⟩ := hpgf
      exact ⟨pg', hg, hu⟩
  · intro walHit pageId T L s trunkPg pg tc pc hstate hlo hhi hT hT0 hpg hpid
      hlk hld hpc hoffz hlen htr htid htlk htld htc hL hLmax hT32
    have h1 := free_page_start_step (walHit 0) pageId s pg hstate hlo hhi
      (by rw [hT]; exact hT0) hpg
    have h2 := free_page_trunk_full_step (walHit 1) pageId T L
      { s with header := { s.header with freelistPages := s.header.freelistPages + 1 }
               freePageState := .addToTrunk pageId none }
      trunkPg tc rfl hT htr htid htlk htld htc hL hLmax
    obtain ⟨sF, h3, hfs, hpgf, hhdrT, _, _, hdirty⟩ :=
      free_page_new_trunk_step (walHit 2) pageId T
        { s with header := { s.header with freelistPages := s.header.freelistPages + 1 }
                 freePageState := .newTrunk pageId }
        pg pc rfl hT hpg hpid hlk hld hpc hoffz hlen hT32
    refine ⟨sF, ?_, hfs, hpgf, hhdrT, hdirty⟩
    show free_page_loop walHit none pageId (3 + 1) 0 s = _
    rw [free_page_loop_next _ _ _ _ _ _ _ h1]
    rw [free_page_loop_next _ _ _ _ _ _ _ h2]
    exact free_page_loop_ret _ _ _ _ _ _ _ _ h3

/-- Witness for C4 on concrete pagers: freeing page 4 with a roomy trunk 3
(case A) and with a full trunk 3 (case B). -/
theorem C4_free_page_trunk_witness :
    (∃ s', free_page (fun _ => false) none 4 freePageStateA = (.done, s')
      ∧ (∃ trunkPg' tc', cacheGet s'.cache 3 = some trunkPg'
          ∧ trunkPg'.flags.dirty = true ∧ trunkPg'.contents = some tc'
          ∧ tc'.readU32At 4 = 0 + 1 ∧ tc'.readU32At (8 + 0 * 4) = 4))
    ∧ (∃ s', free_page (fun _ => false) none 4 freePageStateB = (.done, s')
      ∧ s'.header.freelistTrunkPage = 4) := by
  constructor
  · obtain ⟨s', hrun, _, htrunk, _, _⟩ :=
      C4_free_page_trunk.1 (fun _ => false) 4 3 0 freePageStateA
        (mkPage 3 false (List.replicate 16 0)) (mkPage 4 false (List.replicate 16 0))
        ⟨0, List.replicate 16 0, 0⟩
        rfl (by decide) (by decide) rfl (by decide) (by decide) rfl rfl rfl
        rfl rfl rfl rfl rfl (by decide) (by decide) (by decide) (by decide)
    exact ⟨s', hrun, htrunk⟩
  · obtain ⟨s', hrun, _, _, hhdr, _⟩ :=
      C4_free_page_trunk.2 (fun _ => false) 4 3 126 freePageStateB
        (mkPage 3 false trunkFullData) (mkPage 4 false (List.replicate 8 0))
        ⟨0, trunkFullData, 0⟩ ⟨0, List.replicate 8 0, 0⟩
        rfl (by decide) (by decide) rfl (by decide) rfl rfl rfl rfl rfl rfl
        (by decide) rfl rfl rfl rfl rfl (by decide) (by decide) (by decide)
    exact ⟨s', hrun, hhdr⟩

/-! ## Claim C7: ptrmap_get result classification -/

theorem byteAt_take_drop (l : List Nat) (off n j : Nat) (h : j < n) :
    byteAt ((l.drop off).take n) j = byteAt l (off + j) := by
  simp [byteAt, List.getElem?_take_of_lt h, List.getElem?_drop]

/-- C7 counterexample: on a pager whose ptrmap page 2 holds only 3 bytes,
`ptrmap_get(3)` hits the out-of-bounds entry offset and returns
`InternalError`, not the `Corrupt` error the claim asserts. -/
theorem C7_counterexample :
    (ptrmap_get false ptrmapCexState 3).1 =
      .error (.InternalError "Ptrmap offset out of bounds for page")
    ∧ resultIsCorrupt (ptrmap_get false ptrmapCexState 3).1 = false :=
  ⟨rfl, rfl⟩

/-- C7 amended: `ptrmap_get(q)` returns `Done(None)` when `q` is page 1
or a ptrmap page; it returns `Corrupt` when the stored entry's type byte
is not in 1..5; it returns an `InternalError` (not `Corrupt`) when the
computed entry offset plus the 5-byte entry size exceeds the actual data
length of the ptrmap page; and it returns `InternalError` when the ptrmap
page's content is missing despite being loaded. -/
theorem C7_ptrmap_get_amended :
    (∀ w s q, q = 1 ∨ is_ptrmap_page q s.pageSizeCached = true →
       ptrmap_get w s q = (.ok (.Done none), s))
    ∧ (∀ w s q P off page c,
        2 ≤ q → is_ptrmap_page q s.pageSizeCached = false →
        P = get_ptrmap_page_no_for_db_page q s.pageSizeCached →
        get_ptrmap_offset_in_page q P s.pageSizeCached = .ok off →
        cacheGet s.cache P = some page →
        page.flags.locked = false → page.flags.loaded = true →
        page.contents = some c → c.offset = 0 →
        off + 5 ≤ c.data.length →
        PtrmapType.fromU8 (byteAt c.data off) = none →
        (ptrmap_get w s q).1 =
          .error (.Corrupt "Failed to deserialize ptrmap entry"))
    ∧ (∀ w s q P off page c,
        2 ≤ q → is_ptrmap_page q s.pageSizeCached = false →
        P = get_ptrmap_page_no_for_db_page q s.pageSizeCached →
        get_ptrmap_offset_in_page q P s.pageSizeCached = .ok off →
        cacheGet s.cache P = some page →
        page.flags.locked = false → page.flags.loaded = true →
        page.contents = some c → c.offset = 0 →
        c.data.length < off + 5 →
        (ptrmap_get w s q).1 =
          .error (.InternalError "Ptrmap offset out of bounds for page"))
    ∧ (∀ w s q P off page,
        2 ≤ q → is_ptrmap_page q s.pageSizeCached = false →
        P = get_ptrmap_page_no_for_db_page q s.pageSizeCached →
        get_ptrmap_offset_in_page q P s.pageSizeCached = .ok off →
        cacheGet s.cache P = some page →
        page.flags.locked = false → page.flags.loaded = true →
        page.contents = none →
        (ptrmap_get w s q).1 =
          .error (.InternalError "Ptrmap page content not loaded")) := by
  refine ⟨?_, ?_, ?_, ?_⟩
  · intro w s q hq
    rcases hq with h1 | h2
    · subst h1
      simp [ptrmap_get, FIRST_PTRMAP_PAGE_NO]
    · simp [ptrmap_get, h2]
  · intro w s q P off page c hq hnp hP hoff hget hlk hld hc hco hlen htype
    subst hP
    have hq2 : ¬ (q < FIRST_PTRMAP_PAGE_NO ∨
        is_ptrmap_page q s.pageSizeCached = true) := by
      simp [FIRST_PTRMAP_PAGE_NO, hnp]; omega
    have hb : byteAt ((c.data.drop off).take 5) 0 = byteAt c.data off := by
      simpa using byteAt_take_drop c.data off 5 0 (by omega)
    have hslen : ((c.data.drop off).take 5).length = 5 := by
      simp; omega
    have h5 : ¬ (c.data.length < off + 5) := by omega
    have hdes : PtrmapEntry.deserialize ((c.data.drop off).take 5) = none := by
      simp [PtrmapEntry.deserialize, PTRMAP_ENTRY_SIZE, hslen, hb, htype]
    simp only [ptrmap_get, hq2, if_false, hoff, read_page, hget, hlk, hld, hc,
      hco, PTRMAP_ENTRY_SIZE, List.drop_zero]
    simp [h5, hdes]
  · intro w s q P off page c hq hnp hP hoff hget hlk hld hc hco hlen
    subst hP
    have hq2 : ¬ (q < FIRST_PTRMAP_PAGE_NO ∨
        is_ptrmap_page q s.pageSizeCached = true) := by
      simp [FIRST_PTRMAP_PAGE_NO, hnp]; omega
    simp only [ptrmap_get, hq2, if_false, hoff, read_page, hget, hlk, hld, hc,
      hco, PTRMAP_ENTRY_SIZE, List.drop_zero]
    simp [hlen]
  · intro w s q P off page hq hnp hP hoff hget hlk hld hc
    subst hP
    have hq2 : ¬ (q < FIRST_PTRMAP_PAGE_NO ∨
        is_ptrmap_page q s.pageSizeCached = true) := by
      simp [FIRST_PTRMAP_PAGE_NO, hnp]; omega
    simp [ptrmap_get, hq2, hoff, read_page, hget, hlk, hld, hc]

/-- Witness for C7 amended: page 1, a bad type byte, a short buffer, and
missing contents, all on concrete pagers. -/
theorem C7_ptrmap_get_amended_witness :
    ptrmap_get false basePager 1 = (.ok (.Done none), basePager)
    ∧ (ptrmap_get false ptrmapBadTypeState 3).1 =
        .error (.Corrupt "Failed to deserialize ptrmap entry")
    ∧ (ptrmap_get false ptrmapCexState 3).1 =
        .error (.InternalError "Ptrmap offset out of bounds for page")
    ∧ (ptrmap_get false ptrmapNoContentsState 3).1 =
        .error (.InternalError "Ptrmap page content not loaded") :=
  ⟨C7_ptrmap_get_amended.1 false basePager 1 (Or.inl rfl),
   C7_ptrmap_get_amended.2.1 false ptrmapBadTypeState 3 2 0
     (mkPage 2 false [0, 0, 0, 0, 0]) ⟨0, [0, 0, 0, 0, 0], 0⟩
     (by decide) (by decide) rfl rfl rfl rfl rfl rfl rfl (by decide) rfl,
   C7_ptrmap_get_amended.2.2.1 false ptrmapCexState 3 2 0
     (mkPage 2 false [1, 2, 3]) ⟨0, [1, 2, 3], 0⟩
     (by decide) (by decide) rfl rfl rfl rfl rfl rfl rfl (by decide),
   C7_ptrmap_get_amended.2.2.2 false ptrmapNoContentsState 3 2 0
     ((cacheGet ptrmapNoContentsState.cache 2).getD (mkPage 2 false []))
     (by decide) (by decide) rfl rfl rfl rfl rfl rfl⟩

/-! ## Claim C8: cacheflush effects -/

theorem optionMap_clearDirty_idem (x : Option MPage) :
    (x.map MPage.clearDirtyP).map MPage.clearDirtyP = x.map MPage.clearDirtyP := by
  cases x <;> simp [MPage.clearDirtyP]

theorem clearDirtyP_comp :
    MPage.clearDirtyP ∘ MPage.clearDirtyP = MPage.clearDirtyP := by
  funext p
  rfl

theorem cacheGet_clearDirtyIds (c : List (Nat × MPage)) (l : List Nat)
    (id : Nat) :
    cacheGet (cacheClearDirtyIds c l) id =
      if id ∈ l then (cacheGet c id).map MPage.clearDirtyP
      else cacheGet c id := by
  induction l generalizing c with
  | nil => simp [cacheClearDirtyIds]
  | cons a l ih =>
    simp only [cacheClearDirtyIds, List.foldl_cons] at ih ⊢
    rw [ih, cacheGet_cacheUpdate]
    by_cases hal : id ∈ l
    · by_cases ha : a = id <;>
        simp [hal, ha, optionMap_clearDirty_idem, clearDirtyP_comp]
    · by_cases ha : a = id
      · simp [hal, ha]
      · have hne : ¬ id = a := fun hh => ha hh.symm
        have hnm : ¬ (id ∈ a :: l) := by simp [List.mem_cons, hal, hne]
        simp [hal, ha, hnm]

theorem cacheIds_clearDirtyIds (c : List (Nat × MPage)) (l : List Nat) :
    cacheIds (cacheClearDirtyIds c l) = cacheIds c := by
  induction l generalizing c with
  | nil => rfl
  | cons a l ih =>
    simp only [cacheClearDirtyIds, List.foldl_cons] at ih ⊢
    rw [ih, cacheIds_cacheUpdate]

theorem cacheClearDirtyIds_concat (c : List (Nat × MPage)) (l : List Nat)
    (a : Nat) :
    cacheClearDirtyIds c (l ++ [a]) =
      cacheUpdate (cacheClearDirtyIds c l) a MPage.clearDirtyP := by
  simp [cacheClearDirtyIds]

theorem io_pump_flushInv (D : List Nat) (base : List WalEvent)
    (c0 : List (Nat × MPage)) (a b c : Nat) (d : Bool) (s : PagerS)
    (h : flushSnapshotInv D base c0 s) :
    flushSnapshotInv D base c0 (io_pump a b c d s) := by
  obtain ⟨h1, h2⟩ := h
  refine ⟨h1, ?_⟩
  cases hs : s.flushInfo.state <;>
    simp only [flushSnapshotInv, io_pump, hs] at h2 ⊢ <;> exact h2

/-- One `cacheflush` call preserves the snapshot invariant on an `io`
result and establishes the final flush effects on a `done` result. -/
theorem cacheflush_step_inv (D : List Nat) (base : List WalEvent)
    (c0 : List (Nat × MPage)) (e : CEnv) (s : PagerS)
    (hinv : flushSnapshotInv D base c0 s) :
    (∀ s1, cacheflush e s = (.io, s1) → flushSnapshotInv D base c0 s1)
    ∧ (∀ s1, cacheflush e s = (.done, s1) →
        s1.trace = (D.map (fun p => WalEvent.append p 0)).reverse ++ base
        ∧ s1.cache = cacheClearDirtyIds c0 D ∧ s1.dirtyPages = []) := by
  obtain ⟨hD, hphase⟩ := hinv
  cases hs : s.flushInfo.state with
  | start =>
    simp only [hs] at hphase
    obtain ⟨htr, hc⟩ := hphase
    by_cases hemp : s.dirtyPages.isEmpty
    · have hDnil : D = [] := by rw [← hD]; exact List.isEmpty_iff.mp hemp
      constructor
      · intro s1 h1
        simp [cacheflush, hs, flush_start, hemp] at h1
      · intro s1 h1
        simp only [cacheflush, hs, flush_start, hemp, if_true, if_pos] at h1
        obtain rfl : s = s1 := by
          simpa using congrArg Prod.snd h1
        exact ⟨by simp [hDnil, htr], by simp [hDnil, cacheClearDirtyIds, hc],
          by simp [hD, hDnil]⟩
    · constructor
      · intro s1 h1
        simp only [cacheflush, hs, flush_start, hemp, if_false, if_neg,
          Prod.mk.injEq] at h1
        obtain ⟨-, rfl⟩ := h1
        refine ⟨hD, ?_⟩
        simp only [flushSnapshotInv]
        refine ⟨hD, ?_, by simpa using htr, by simpa [cacheClearDirtyIds] using hc⟩
        have : D ≠ [] := by
          rw [← hD]; exact fun hh => hemp (by simp [hh])
        cases D with
        | nil => exact absurd rfl this
        | cons a l => simp
      · intro s1 h1
        simp [cacheflush, hs, flush_start, hemp] at h1
  | appendFrame i =>
    simp only [hs] at hphase
    obtain ⟨hfd, hilen, htr, hc⟩ := hphase
    subst hfd
    have hts : s.flushInfo.dirtyPages.take (i + 1)
        = s.flushInfo.dirtyPages.take i ++ [s.flushInfo.dirtyPages[i]] := by
      rw [List.take_succ]
      congr 1
      simp [List.getElem?_eq_getElem hilen]
    constructor
    · intro s1 h1
      rcases hcg : cacheGet s.cache (s.flushInfo.dirtyPages[i]) with _ | page
      · simp [cacheflush, hs, flush_append_frame, dif_pos hilen, hcg] at h1
      · rcases hct : page.contents with _ | pc
        · simp [cacheflush, hs, flush_append_frame, dif_pos hilen, hcg, hct] at h1
        · simp only [cacheflush, hs, flush_append_frame, dif_pos hilen,
            List.get_eq_getElem, hcg, hct, Prod.mk.injEq] at h1
          obtain ⟨-, rfl⟩ := h1
          refine ⟨hD, rfl, hilen, ?_, by simpa using hc⟩
          show WalEvent.append (s.flushInfo.dirtyPages[i]) 0 :: s.trace = _
          rw [htr, hts, List.map_append, List.reverse_append]
          rfl
    · intro s1 h1
      rcases hcg : cacheGet s.cache (s.flushInfo.dirtyPages[i]) with _ | page
      · simp [cacheflush, hs, flush_append_frame, dif_pos hilen, hcg] at h1
      · rcases hct : page.contents with _ | pc
        · simp [cacheflush, hs, flush_append_frame, dif_pos hilen, hcg, hct] at h1
        · simp [cacheflush, hs, flush_append_frame, dif_pos hilen, hcg, hct] at h1
  | waitAppendFrame i =>
    simp only [hs] at hphase
    obtain ⟨hfd, hilen, htr, hc⟩ := hphase
    subst hfd
    have hts : s.flushInfo.dirtyPages.take (i + 1)
        = s.flushInfo.dirtyPages.take i ++ [s.flushInfo.dirtyPages[i]] := by
      rw [List.take_succ]
      congr 1
      simp [List.getElem?_eq_getElem hilen]
    have hccsucc :
        cacheUpdate s.cache (s.flushInfo.dirtyPages[i]) MPage.clearDirtyP
          = cacheClearDirtyIds c0 (s.flushInfo.dirtyPages.take (i + 1)) := by
      rw [hc, hts, cacheClearDirtyIds_concat]
    by_cases hfl : 0 < s.flushInfo.inFlightWrites
    · constructor
      · intro s1 h1
        simp only [cacheflush, hs, flush_wait_append_frame, if_pos hfl,
          Prod.mk.injEq] at h1
        obtain ⟨-, rfl⟩ := h1
        refine ⟨hD, ?_⟩
        simp only [flushSnapshotInv, hs]
        exact ⟨trivial, hilen, htr, hc⟩
      · intro s1 h1
        simp [cacheflush, hs, flush_wait_append_frame, if_pos hfl] at h1
    · constructor
      · intro s1 h1
        rcases hcg : cacheGet s.cache (s.flushInfo.dirtyPages[i]) with _ | page
        · simp [cacheflush, hs, flush_wait_append_frame, if_neg hfl,
            dif_pos hilen, hcg] at h1
        · rcases hct : page.contents with _ | pc
          · simp [cacheflush, hs, flush_wait_append_frame, if_neg hfl,
              dif_pos hilen, hcg, hct] at h1
          · by_cases hlast : i = s.flushInfo.dirtyPages.length - 1
            · simp only [cacheflush, hs, flush_wait_append_frame, if_neg hfl,
                dif_pos hilen, List.get_eq_getElem, hcg, hct] at h1
              rw [if_pos hlast] at h1
              exact absurd (congrArg Prod.fst h1) (by simp)
            · simp only [cacheflush, hs, flush_wait_append_frame, if_neg hfl,
                dif_pos hilen, List.get_eq_getElem, hcg, hct] at h1
              rw [if_neg hlast] at h1
              simp only [Prod.mk.injEq] at h1
              obtain ⟨-, rfl⟩ := h1
              refine ⟨hD, rfl, ?_, by simpa using htr, by simpa using hccsucc⟩
              omega
      · intro s1 h1
        rcases hcg : cacheGet s.cache (s.flushInfo.dirtyPages[i]) with _ | page
        · simp [cacheflush, hs, flush_wait_append_frame, if_neg hfl,
            dif_pos hilen, hcg] at h1
        · rcases hct : page.contents with _ | pc
          · simp [cacheflush, hs, flush_wait_append_frame, if_neg hfl,
              dif_pos hilen, hcg, hct] at h1
          · by_cases hlast : i = s.flushInfo.dirtyPages.length - 1
            · simp only [cacheflush, hs, flush_wait_append_frame, if_neg hfl,
                dif_pos hilen, List.get_eq_getElem, hcg, hct] at h1
              rw [if_pos hlast] at h1
              simp only [Prod.mk.injEq] at h1
              obtain ⟨-, rfl⟩ := h1
              have hieq : i + 1 = s.flushInfo.dirtyPages.length := by omega
              refine ⟨?_, ?_, rfl⟩
              · show s.trace = _
                rw [htr, hieq, List.take_length]
              · show cacheUpdate s.cache _ MPage.clearDirtyP = _
                rw [hccsucc, hieq, List.take_length]
            · simp only [cacheflush, hs, flush_wait_append_frame, if_neg hfl,
                dif_pos hilen, List.get_eq_getElem, hcg, hct] at h1
              rw [if_neg hlast] at h1
              exact absurd (congrArg Prod.fst h1) (by simp)

/-- A completed `cacheflush` run from the snapshot invariant yields the
final flush effects. -/
theorem flush_run_done (D : List Nat) (base : List WalEvent)
    (c0 : List (Nat × MPage)) :
    ∀ (scheds : List CallSched) (s s' : PagerS),
      flushSnapshotInv D base c0 s →
      flush_run scheds s = (.done, s') →
      s'.trace = (D.map (fun p => WalEvent.append p 0)).reverse ++ base
      ∧ s'.cache = cacheClearDirtyIds c0 D
      ∧ s'.dirtyPages = [] := by
  intro scheds
  induction scheds with
  | nil =>
    intro s s' hinv hrun
    exact absurd hrun (by simp [flush_run])
  | cons csched rest ih =>
    intro s s' hinv hrun
    obtain ⟨hio, hdone⟩ := cacheflush_step_inv D base c0 (csched.envs 0) s hinv
    rcases hcf : cacheflush (csched.envs 0) s with ⟨r, s1⟩
    cases r with
    | io =>
      have h1 := hio s1 hcf
      simp only [flush_run, hcf] at hrun
      exact ih _ s'
        (io_pump_flushInv D base c0 _ _ _ _ _ h1) hrun
    | done =>
      have h1 := hdone s1 hcf
      simp only [flush_run, hcf] at hrun
      obtain ⟨-, rfl⟩ : FlushRes.done = FlushRes.done ∧ s1 = s' := by
        simpa using hrun
      exact h1
    | panicked =>
      simp only [flush_run, hcf] at hrun
      exact absurd hrun (by simp)

/-- C8: when `cacheflush` runs to completion, every page of the dirty
snapshot has been appended to the WAL with `db_size = 0` (and the trace
gains nothing else — no sync, no checkpoint), the DIRTY flags of those
pages are cleared, the dirty set is emptied, and the cache is otherwise
preserved: the set of cached pages is unchanged and pages outside the
snapshot are untouched. -/
theorem C8_cacheflush_effects (scheds : List CallSched) (s s' : PagerS)
    (D : List Nat)
    (hstate : s.flushInfo.state = .start) (hD : s.dirtyPages = D)
    (hrun : flush_run scheds s = (.done, s')) :
    s'.trace = (D.map (fun p => WalEvent.append p 0)).reverse ++ s.trace
    ∧ cacheIds s'.cache = cacheIds s.cache
    ∧ (∀ id, id ∈ D →
        cacheGet s'.cache id = (cacheGet s.cache id).map MPage.clearDirtyP)
    ∧ (∀ id, id ∉ D → cacheGet s'.cache id = cacheGet s.cache id)
    ∧ s'.dirtyPages = [] := by
  have hinv : flushSnapshotInv D s.trace s.cache s := by
    refine ⟨hD, ?_⟩
    simp only [flushSnapshotInv, hstate]
    exact ⟨trivial, trivial⟩
  obtain ⟨ht, hc, hd⟩ := flush_run_done D s.trace s.cache scheds s s' hinv hrun
  refine ⟨ht, ?_, ?_, ?_, hd⟩
  · rw [hc, cacheIds_clearDirtyIds]
  · intro id hid
    rw [hc, cacheGet_clearDirtyIds, if_pos hid]
  · intro id hid
    rw [hc, cacheGet_clearDirtyIds, if_neg hid]

/-- Witness for C8: flushing two dirty pages on a concrete pager. -/
theorem C8_cacheflush_effects_witness :
    ∃ s', flush_run [okSched, okSched, okSched, okSched, okSched] dirtyTwoPager
        = (.done, s')
      ∧ s'.trace = ([3, 4].map (fun p => WalEvent.append p 0)).reverse
          ++ dirtyTwoPager.trace
      ∧ s'.dirtyPages = [] := by
  have h : flush_run [okSched, okSched, okSched, okSched, okSched] dirtyTwoPager
      = (.done, (flush_run [okSched, okSched, okSched, okSched, okSched]
          dirtyTwoPager).2) := rfl
  have hx := C8_cacheflush_effects
    [okSched, okSched, okSched, okSched, okSched] dirtyTwoPager _ [3, 4]
    rfl rfl h
  exact ⟨_, h, hx.1, hx.2.2.2.2⟩

/-! ## Claim C2: finish_append_frames_commit only after a successful sync -/

theorem finishOrdered_append (u t : List WalEvent)
    (hu : ∀ x ∈ u, x ≠ WalEvent.finishCommit) (ht : finishOrdered t) :
    finishOrdered (u ++ t) := by
  induction u with
  | nil => simpa using ht
  | cons a u ih =>
    refine ⟨fun ha => absurd ha (hu a (by simp)), ?_⟩
    exact ih fun x hx => hu x (by simp [hx])

theorem countFinish_append_eq (u t : List WalEvent)
    (hu : ∀ x ∈ u, x ≠ WalEvent.finishCommit) :
    countFinish (u ++ t) = countFinish t := by
  have hnm : WalEvent.finishCommit ∉ u := fun hmem => (hu _ hmem) rfl
  simp [countFinish, List.count_append, List.count_eq_zero.mpr hnm]

/-- One checkpoint arm records only checkpoint or db-sync events and
touches neither `commit_info` nor the header. -/
theorem checkpoint_arm_frame (e : CEnv) (cres : CheckpointResult) (s : PagerS) :
    (ckStepState (checkpoint_arm e cres s)).commitInfo = s.commitInfo
    ∧ (ckStepState (checkpoint_arm e cres s)).header = s.header
    ∧ ∃ u, (ckStepState (checkpoint_arm e cres s)).trace = u ++ s.trace
        ∧ ∀ x ∈ u, x = WalEvent.checkpointInvoked ∨ x = WalEvent.dbSyncBegin := by
  cases hck : s.checkpointState with
  | checkpoint =>
    simp only [checkpoint_arm, hck]
    cases e.walCkptRes with
    | io => exact ⟨rfl, rfl, [WalEvent.checkpointInvoked], rfl, by simp⟩
    | done r => exact ⟨rfl, rfl, [WalEvent.checkpointInvoked], rfl, by simp⟩
    | err => exact ⟨rfl, rfl, [WalEvent.checkpointInvoked], rfl, by simp⟩
  | syncDbFile =>
    simp only [checkpoint_arm, hck]
    exact ⟨rfl, rfl, [WalEvent.dbSyncBegin], rfl, by simp⟩
  | waitSyncDbFile =>
    simp only [checkpoint_arm, hck]
    by_cases hsy : s.syncing = true
    · rw [if_pos hsy]; exact ⟨rfl, rfl, [], rfl, by simp⟩
    · rw [if_neg hsy]; exact ⟨rfl, rfl, [], rfl, by simp⟩
  | checkpointDone =>
    simp only [checkpoint_arm, hck]
    by_cases hin : 0 < s.checkpointInflight
    · rw [if_pos hin]; exact ⟨rfl, rfl, [], rfl, by simp⟩
    · rw [if_neg hin]; exact ⟨rfl, rfl, [], rfl, by simp⟩

/-- The whole nested checkpoint loop records only checkpoint or db-sync
events and touches neither `commit_info` nor the header. -/
theorem checkpoint_loop_frame (envs : Nat → CEnv) :
    ∀ (fuel k : Nat) (cres : CheckpointResult) (s : PagerS) (res : CkRes)
      (kk : Nat) (s' : PagerS),
      checkpoint_loop envs fuel k cres s = (res, kk, s') →
      s'.commitInfo = s.commitInfo
      ∧ s'.header = s.header
      ∧ ∃ u, s'.trace = u ++ s.trace
          ∧ ∀ x ∈ u, x = WalEvent.checkpointInvoked ∨ x = WalEvent.dbSyncBegin := by
  intro fuel
  induction fuel with
  | zero =>
    intro k cres s res kk s' h
    simp only [checkpoint_loop, Prod.mk.injEq] at h
    obtain ⟨-, -, rfl⟩ := h
    exact ⟨rfl, rfl, [], rfl, by simp⟩
  | succ n ih =>
    intro k cres s res kk s' h
    have hfr := checkpoint_arm_frame (envs k) cres s
    rcases harm : checkpoint_arm (envs k) cres s with s1 | s1 | ⟨r1, s1⟩ | ⟨c1, s1⟩
    · rw [harm] at hfr
      simp only [ckStepState] at hfr
      simp only [checkpoint_loop, harm, Prod.mk.injEq] at h
      obtain ⟨-, -, rfl⟩ := h
      exact hfr
    · rw [harm] at hfr
      simp only [ckStepState] at hfr
      simp only [checkpoint_loop, harm, Prod.mk.injEq] at h
      obtain ⟨-, -, rfl⟩ := h
      exact hfr
    · rw [harm] at hfr
      simp only [ckStepState] at hfr
      simp only [checkpoint_loop, harm, Prod.mk.injEq] at h
      obtain ⟨-, -, rfl⟩ := h
      exact hfr
    · rw [harm] at hfr
      simp only [ckStepState] at hfr
      simp only [checkpoint_loop, harm] at h
      obtain ⟨hci1, hh1, u1, hu1, hnf1⟩ := ih (k + 1) c1 s1 res kk s' h
      obtain ⟨hci0, hh0, u0, hu0, hnf0⟩ := hfr
      refine ⟨hci1.trans hci0, hh1.trans hh0, u1 ++ u0, ?_, ?_⟩
      · rw [hu1, hu0, List.append_assoc]
      · intro x hx
        rcases List.mem_append.mp hx with hx | hx
        · exact hnf1 x hx
        · exact hnf0 x hx

theorem io_pump_C2 (a b c : Nat) (d : Bool) (s : PagerS)
    (h : commitC2Inv s) : commitC2Inv (io_pump a b c d s) := by
  obtain ⟨h1, h2⟩ := h
  exact ⟨h1, h2⟩

/-- One commit arm preserves the temporal invariant; outside the `break`
outcomes it records no `finish_append_frames_commit`. -/
theorem commit_arm_C2 (d : Bool) (e : CEnv) (cres : CheckpointResult)
    (s : PagerS) (hinv : commitC2Inv s) :
    commitStepC2 s (commit_arm d e cres s) := by
  obtain ⟨hfo, htrig⟩ := hinv
  cases hcs : s.commitInfo.state with
  | start =>
    simp only [commit_arm, hcs, commit_start]
    by_cases hemp : s.dirtyPages.isEmpty = true
    · rw [if_pos hemp]
      exact ⟨hfo, htrig⟩
    · rw [if_neg hemp]
      refine ⟨⟨hfo, ?_⟩, rfl⟩
      intro hx
      rcases hx with hx | hx | hx <;> simp at hx
  | appendFrame i =>
    simp only [commit_arm, hcs, commit_append_frame]
    by_cases hi : i < s.commitInfo.dirtyPages.length
    · rw [dif_pos hi]
      rcases hcg : cacheGet s.cache (s.commitInfo.dirtyPages.get ⟨i, hi⟩)
        with _ | page
      · simp only [hcg]
        exact ⟨⟨hfo, htrig⟩, rfl⟩
      · rcases hct : page.contents with _ | pc
        · simp only [hcg, hct]
          exact ⟨⟨hfo, htrig⟩, rfl⟩
        · simp only [hcg, hct]
          refine ⟨⟨⟨fun hx => absurd hx (by simp), hfo⟩, ?_⟩, ?_⟩
          · intro hx
            rcases hx with hx | hx | hx <;> simp at hx
          · simp [countFinish]
    · rw [dif_neg hi]
      exact ⟨⟨hfo, htrig⟩, rfl⟩
  | waitAppendFrame i =>
    simp only [commit_arm, hcs, commit_wait_append_frame]
    by_cases hfl : 0 < s.commitInfo.inFlightWrites
    · rw [if_pos hfl]
      exact ⟨⟨hfo, htrig⟩, rfl⟩
    · rw [if_neg hfl]
      by_cases hi : i < s.commitInfo.dirtyPages.length
      · rw [dif_pos hi]
        rcases hcg : cacheGet s.cache (s.commitInfo.dirtyPages.get ⟨i, hi⟩)
          with _ | page
        · simp only [hcg]
          exact ⟨⟨hfo, htrig⟩, rfl⟩
        · rcases hct : page.contents with _ | pc
          · simp only [hcg, hct]
            exact ⟨⟨hfo, htrig⟩, rfl⟩
          · simp only [hcg, hct]
            by_cases hlast : i = s.commitInfo.dirtyPages.length - 1
            · rw [if_pos hlast]
              rcases hcc : cacheClear (cacheUpdate s.cache
                  (s.commitInfo.dirtyPages.get ⟨i, hi⟩) MPage.clearDirtyP)
                with _ | c
              · simp only [hcc]
                exact ⟨⟨hfo, htrig⟩, rfl⟩
              · simp only [hcc]
                refine ⟨⟨hfo, ?_⟩, rfl⟩
                intro hx
                rcases hx with hx | hx | hx <;> simp at hx
            · rw [if_neg hlast]
              refine ⟨⟨hfo, ?_⟩, rfl⟩
              intro hx
              rcases hx with hx | hx | hx <;> simp at hx
      · rw [dif_neg hi]
        exact ⟨⟨hfo, htrig⟩, rfl⟩
  | syncWal =>
    simp only [commit_arm, hcs, commit_sync_wal]
    cases e.syncRes with
    | io => exact ⟨⟨hfo, htrig⟩, rfl⟩
    | err => exact ⟨⟨hfo, htrig⟩, rfl⟩
    | ok =>
      by_cases hd : d = true ∨ ¬ e.shouldCheckpoint = true
      · rw [if_pos hd]
        refine ⟨⟨fun _ => by simp, fun hx => absurd hx (by simp), hfo⟩, ?_⟩
        intro hx
        rcases hx with hx | hx | hx <;> simp at hx
      · rw [if_neg hd]
        refine ⟨⟨⟨fun hx => absurd hx (by simp), hfo⟩, fun _ => by simp⟩, ?_⟩
        simp [countFinish]
  | checkpoint =>
    simp only [commit_arm, hcs]
    exact hcs
  | syncDbFile =>
    simp only [commit_arm, hcs, commit_sync_db_file]
    refine ⟨⟨⟨fun hx => absurd hx (by simp), hfo⟩, ?_⟩, ?_⟩
    · intro _
      exact List.mem_cons_of_mem _ (htrig (Or.inr (Or.inl hcs)))
    · simp [countFinish]
  | waitSyncDbFile =>
    simp only [commit_arm, hcs, commit_wait_sync_db_file]
    by_cases hsy : s.syncing = true
    · rw [if_pos hsy]
      exact ⟨⟨hfo, htrig⟩, rfl⟩
    · rw [if_neg hsy]
      refine ⟨⟨fun _ => htrig (Or.inr (Or.inr hcs)), hfo⟩, ?_⟩
      intro hx
      rcases hx with hx | hx | hx <;> simp at hx

/-- One `commit_dirty_pages` call preserves the temporal invariant, and
records no `finish_append_frames_commit` unless it returns `Done`. -/
theorem commit_loop_C2 (d : Bool) (envs : Nat → CEnv) :
    ∀ (fuel k : Nat) (cres : CheckpointResult) (s : PagerS)
      (res : CallRes) (kk : Nat) (s' : PagerS),
      commitC2Inv s →
      commit_loop d envs fuel k cres s = (res, kk, s') →
      commitC2Inv s'
      ∧ ((∀ r0, res ≠ CallRes.done r0) →
          countFinish s'.trace = countFinish s.trace) := by
  intro fuel
  induction fuel with
  | zero =>
    intro k cres s res kk s' hinv h
    simp only [commit_loop, Prod.mk.injEq] at h
    obtain ⟨-, -, rfl⟩ := h
    exact ⟨hinv, fun _ => rfl⟩
  | succ n ih =>
    intro k cres s res kk s' hinv h
    have hstep := commit_arm_C2 d (envs k) cres s hinv
    rcases harm : commit_arm d (envs k) cres s
      with s1 | s1 | ⟨r0, s1⟩ | s1 | s1 | -
    · rw [harm] at hstep
      simp only [commitStepC2] at hstep
      simp only [commit_loop, harm, Prod.mk.injEq] at h
      obtain ⟨-, -, rfl⟩ := h
      exact ⟨hstep.1, fun _ => hstep.2⟩
    · rw [harm] at hstep
      simp only [commitStepC2] at hstep
      simp only [commit_loop, harm, Prod.mk.injEq] at h
      obtain ⟨-, -, rfl⟩ := h
      exact ⟨hstep.1, fun _ => hstep.2⟩
    · rw [harm] at hstep
      simp only [commitStepC2] at hstep
      simp only [commit_loop, harm, Prod.mk.injEq] at h
      obtain ⟨hres, -, rfl⟩ := h
      exact ⟨hstep, fun hne => absurd hres.symm (hne r0)⟩
    · rw [harm] at hstep
      simp only [commitStepC2] at hstep
      simp only [commit_loop, harm, Prod.mk.injEq] at h
      obtain ⟨-, -, rfl⟩ := h
      exact ⟨hstep.1, fun _ => hstep.2⟩
    · rw [harm] at hstep
      simp only [commitStepC2] at hstep
      simp only [commit_loop, harm] at h
      have hrec := ih (k + 1) cres s1 res kk s' hstep.1 h
      exact ⟨hrec.1, fun hne => (hrec.2 hne).trans hstep.2⟩
    · rw [harm] at hstep
      simp only [commitStepC2] at hstep
      have hsync : WalEvent.syncOk ∈ s.trace := hinv.2 (Or.inl hstep)
      rcases hckl : checkpoint_loop envs n k .dflt s with ⟨ckr, kk1, s1⟩
      obtain ⟨hci, -, u, hu1, hu2⟩ :=
        checkpoint_loop_frame envs n k .dflt s ckr kk1 s1 hckl
      have hnf : ∀ x ∈ u, x ≠ WalEvent.finishCommit := by
        intro x hx
        rcases hu2 x hx with hx2 | hx2 <;> simp [hx2]
      cases ckr with
      | io =>
        simp only [commit_loop, harm, hckl, Prod.mk.injEq] at h
        obtain ⟨-, -, rfl⟩ := h
        refine ⟨⟨?_, fun _ => ?_⟩, fun _ => ?_⟩
        · rw [hu1]; exact finishOrdered_append u s.trace hnf hinv.1
        · rw [hu1]; exact List.mem_append.mpr (Or.inr hsync)
        · rw [hu1]; exact countFinish_append_eq u s.trace hnf
      | err =>
        simp only [commit_loop, harm, hckl, Prod.mk.injEq] at h
        obtain ⟨-, -, rfl⟩ := h
        refine ⟨⟨?_, fun _ => ?_⟩, fun _ => ?_⟩
        · rw [hu1]; exact finishOrdered_append u s.trace hnf hinv.1
        · rw [hu1]; exact List.mem_append.mpr (Or.inr hsync)
        · rw [hu1]; exact countFinish_append_eq u s.trace hnf
      | outOfFuel =>
        simp only [commit_loop, harm, hckl, Prod.mk.injEq] at h
        obtain ⟨-, -, rfl⟩ := h
        refine ⟨⟨?_, fun _ => ?_⟩, fun _ => ?_⟩
        · rw [hu1]; exact finishOrdered_append u s.trace hnf hinv.1
        · rw [hu1]; exact List.mem_append.mpr (Or.inr hsync)
        · rw [hu1]; exact countFinish_append_eq u s.trace hnf
      | done r1 =>
        simp only [commit_loop, harm, hckl] at h
        have hinv2 : commitC2Inv
            { s1 with commitInfo :=
                { s1.commitInfo with state := CommitState.syncDbFile } } := by
          refine ⟨?_, fun _ => ?_⟩
          · show finishOrdered s1.trace
            rw [hu1]; exact finishOrdered_append u s.trace hnf hinv.1
          · show WalEvent.syncOk ∈ s1.trace
            rw [hu1]; exact List.mem_append.mpr (Or.inr hsync)
        have hrec := ih kk1 r1 _ res kk s' hinv2 h
        refine ⟨hrec.1, fun hne => ?_⟩
        have h2 := hrec.2 hne
        rw [h2]
        show countFinish s1.trace = countFinish s.trace
        rw [hu1]; exact countFinish_append_eq u s.trace hnf

/-- A whole pump-driven run of `commit_dirty_pages` calls preserves the
temporal invariant; a run still reporting `IO` has recorded no
`finish_append_frames_commit`. -/
theorem commit_run_C2 (d : Bool) :
    ∀ (scheds : List CallSched) (s : PagerS), commitC2Inv s →
      ∀ r s', commit_run d scheds s = (r, s') →
        commitC2Inv s'
        ∧ (r = CallRes.io → countFinish s'.trace = countFinish s.trace) := by
  intro scheds
  induction scheds with
  | nil =>
    intro s hinv r s' h
    simp only [commit_run, Prod.mk.injEq] at h
    obtain ⟨-, rfl⟩ := h
    exact ⟨hinv, fun _ => rfl⟩
  | cons c rest ih =>
    intro s hinv r s' h
    rcases hcl : commit_loop d c.envs c.fuel 0 .dflt s with ⟨cr, k1, s1⟩
    have hone := commit_loop_C2 d c.envs c.fuel 0 .dflt s cr k1 s1 hinv hcl
    cases cr with
    | io =>
      simp only [commit_run, hcl] at h
      have hinv1 : commitC2Inv (io_pump c.pumpCommitWrites c.pumpFlushWrites
          c.pumpCkptWrites c.pumpFsync s1) :=
        io_pump_C2 _ _ _ _ _ hone.1
      have hrec := ih _ hinv1 r s' h
      refine ⟨hrec.1, fun hio => ?_⟩
      have h2 := hrec.2 hio
      rw [h2]
      show countFinish s1.trace = countFinish s.trace
      exact hone.2 (by simp)
    | done r0 =>
      simp only [commit_run, hcl, Prod.mk.injEq] at h
      obtain ⟨rfl, rfl⟩ := h
      exact ⟨hone.1, fun hio => absurd hio (by simp)⟩
    | err =>
      simp only [commit_run, hcl, Prod.mk.injEq] at h
      obtain ⟨rfl, rfl⟩ := h
      exact ⟨hone.1, fun hio => absurd hio (by simp)⟩
    | panicked =>
      simp only [commit_run, hcl, Prod.mk.injEq] at h
      obtain ⟨rfl, rfl⟩ := h
      exact ⟨hone.1, fun hio => absurd hio (by simp)⟩
    | outOfFuel =>
      simp only [commit_run, hcl, Prod.mk.injEq] at h
      obtain ⟨rfl, rfl⟩ := h
      exact ⟨hone.1, fun hio => absurd hio (by simp)⟩

/-- C2: in every pump-driven execution of `commit_dirty_pages` from a
state whose trace respects the invariant, every recorded
`finish_append_frames_commit` is preceded by a successful WAL sync
(`SyncWal` completed with Ok), and a run that returns `IO` — and hence
any path on which the sync has not yet succeeded — has called
`finish_append_frames_commit` no additional time. -/
theorem C2_finish_after_sync (d : Bool) (scheds : List CallSched)
    (s : PagerS) (hinv : commitC2Inv s) :
    (∀ r s', commit_run d scheds s = (r, s') → finishOrdered s'.trace)
    ∧ (∀ s', commit_run d scheds s = (CallRes.io, s') →
        countFinish s'.trace = countFinish s.trace) := by
  constructor
  · intro r s' h
    exact (commit_run_C2 d scheds s hinv r s' h).1.1
  · intro s' h
    exact (commit_run_C2 d scheds s hinv CallRes.io s' h).2 rfl

/-- Witness for C2: a concrete two-page commit run; the theorem applies
with its invariant discharged on the concrete pager. -/
theorem C2_finish_after_sync_witness :
    ∃ r s', commit_run false [okSched] dirtyTwoPager = (r, s')
      ∧ finishOrdered s'.trace := by
  have h : commit_run false [okSched] dirtyTwoPager
      = ((commit_run false [okSched] dirtyTwoPager).1,
         (commit_run false [okSched] dirtyTwoPager).2) := rfl
  have hx := C2_finish_after_sync false [okSched] dirtyTwoPager
    ⟨trivial, fun hx => absurd hx (by decide)⟩
  exact ⟨_, _, h, hx.1 _ _ h⟩

/-! ## Claim C1: commit frames carry db_size 0 except the last -/

theorem appendsOf_cons_append (p d : Nat) (t : List WalEvent) :
    appendsOf (WalEvent.append p d :: t) = (p, d) :: appendsOf t := rfl

theorem appendsOf_append_list (u t : List WalEvent) :
    appendsOf (u ++ t) = appendsOf u ++ appendsOf t := by
  simp [appendsOf, List.filterMap_append]

theorem appendsOf_ck_nil (u : List WalEvent)
    (h : ∀ x ∈ u, x = WalEvent.checkpointInvoked ∨ x = WalEvent.dbSyncBegin) :
    appendsOf u = [] := by
  induction u with
  | nil => rfl
  | cons a u ih =>
    have ht := ih fun x hx => h x (by simp [hx])
    rcases h a (by simp) with ha | ha <;> subst ha <;>
      simpa [appendsOf, List.filterMap_cons] using ht

theorem midFrames_succ (D : List Nat) (i : Nat) (hilen : i < D.length) :
    midFrames D (i + 1) = midFrames D i ++ [(D.get ⟨i, hilen⟩, 0)] := by
  simp only [midFrames]
  rw [List.take_succ]
  simp only [List.map_append]
  congr 1
  simp [List.getElem?_eq_getElem hilen]

theorem commitFrames_reverse_eq (D : List Nat) (n i : Nat)
    (hilen : i < D.length) (hlast : i = D.length - 1) :
    (commitFrames D n).reverse
      = (D.get ⟨i, hilen⟩, n) :: (midFrames D i).reverse := by
  have hdrop : D.drop i = [D.get ⟨i, hilen⟩] := by
    rw [List.drop_eq_getElem_cons hilen]
    have hlen : D.length ≤ i + 1 := by omega
    simp [List.drop_eq_nil_of_le hlen]
  rw [commitFrames, ← hlast, hdrop]
  simp [List.reverse_append]

theorem io_pump_C1 (D : List Nat) (n : Nat) (base : List (Nat × Nat))
    (a b c : Nat) (d : Bool) (s : PagerS)
    (h : commitFramesInv D n base s) :
    commitFramesInv D n base (io_pump a b c d s) := by
  obtain ⟨h1, h2⟩ := h
  refine ⟨h1, ?_⟩
  cases hs : s.commitInfo.state <;>
    simp only [io_pump, hs] at h2 ⊢ <;> exact h2

/-- One commit arm preserves the frame-batch invariant; on `break` the
appends of the trace are exactly the snapshot's frames, last one carrying
the database size. -/
theorem commit_arm_C1 (d : Bool) (e : CEnv) (cres : CheckpointResult)
    (s : PagerS) (D : List Nat) (n : Nat) (base : List (Nat × Nat))
    (hD : D ≠ []) (hinv : commitFramesInv D n base s) :
    commitStepC1 D n base s (commit_arm d e cres s) := by
  obtain ⟨hn, hphase⟩ := hinv
  cases hcs : s.commitInfo.state with
  | start =>
    simp only [hcs] at hphase
    obtain ⟨hd, hap⟩ := hphase
    simp only [commit_arm, hcs, commit_start]
    have hemp : ¬ (s.dirtyPages.isEmpty = true) := by
      rw [hd]
      simpa using hD
    rw [if_neg hemp]
    refine ⟨hn, hd, List.length_pos.mpr hD, ?_⟩
    exact hap
  | appendFrame i =>
    simp only [hcs] at hphase
    obtain ⟨hdp, hilen, hap⟩ := hphase
    subst hdp
    have hinvS : commitFramesInv s.commitInfo.dirtyPages n base s := by
      refine ⟨hn, ?_⟩
      simp only [hcs]
      exact ⟨by trivial, hilen, hap⟩
    simp only [commit_arm, hcs, commit_append_frame]
    rw [dif_pos hilen]
    rcases hcg : cacheGet s.cache (s.commitInfo.dirtyPages.get ⟨i, hilen⟩)
      with _ | page
    · simp only [hcg]
      exact hinvS
    · rcases hct : page.contents with _ | pc
      · simp only [hcg, hct]
        exact hinvS
      · simp only [hcg, hct]
        by_cases hlast : i = s.commitInfo.dirtyPages.length - 1
        · refine ⟨hn, by trivial, hilen, ?_⟩
          rw [if_pos hlast, if_pos hlast, hn]
          simp only [appendsOf_cons_append]
          rw [hap, commitFrames_reverse_eq _ n i hilen hlast]
          rfl
        · refine ⟨hn, by trivial, hilen, ?_⟩
          rw [if_neg hlast, if_neg hlast]
          simp only [appendsOf_cons_append]
          rw [hap, midFrames_succ _ i hilen]
          simp [List.reverse_append]
  | waitAppendFrame i =>
    simp only [hcs] at hphase
    obtain ⟨hdp, hilen, hap⟩ := hphase
    subst hdp
    have hinvS : commitFramesInv s.commitInfo.dirtyPages n base s := by
      refine ⟨hn, ?_⟩
      simp only [hcs]
      exact ⟨by trivial, hilen, hap⟩
    simp only [commit_arm, hcs, commit_wait_append_frame]
    by_cases hfl : 0 < s.commitInfo.inFlightWrites
    · rw [if_pos hfl]
      exact hinvS
    · rw [if_neg hfl]
      rw [dif_pos hilen]
      rcases hcg : cacheGet s.cache (s.commitInfo.dirtyPages.get ⟨i, hilen⟩)
        with _ | page
      · simp only [hcg]
        exact hinvS
      · rcases hct : page.contents with _ | pc
        · simp only [hcg, hct]
          exact hinvS
        · simp only [hcg, hct]
          by_cases hlast : i = s.commitInfo.dirtyPages.length - 1
          · rw [if_pos hlast]
            rw [if_pos hlast] at hap
            rcases hcc : cacheClear (cacheUpdate s.cache
                (s.commitInfo.dirtyPages.get ⟨i, hilen⟩) MPage.clearDirtyP)
              with _ | c
            · simp only [hcc]
              refine ⟨hn, ?_⟩
              simp only [hcs]
              exact ⟨by trivial, hilen, by rw [if_pos hlast]; exact hap⟩
            · simp only [hcc]
              exact ⟨hn, hap⟩
          · rw [if_neg hlast]
            rw [if_neg hlast] at hap
            refine ⟨hn, by trivial, ?_, hap⟩
            omega
  | syncWal =>
    simp only [hcs] at hphase
    have hinvS : commitFramesInv D n base s := by
      refine ⟨hn, ?_⟩
      simp only [hcs]
      exact hphase
    simp only [commit_arm, hcs, commit_sync_wal]
    cases e.syncRes with
    | io => exact hinvS
    | err => exact hinvS
    | ok =>
      by_cases hd : d = true ∨ ¬ e.shouldCheckpoint = true
      · rw [if_pos hd]
        exact hphase
      · rw [if_neg hd]
        exact ⟨hn, hphase⟩
  | checkpoint =>
    simp only [commit_arm, hcs]
    exact hcs
  | syncDbFile =>
    simp only [hcs] at hphase
    simp only [commit_arm, hcs, commit_sync_db_file]
    exact ⟨hn, hphase⟩
  | waitSyncDbFile =>
    simp only [hcs] at hphase
    have hinvS : commitFramesInv D n base s := by
      refine ⟨hn, ?_⟩
      simp only [hcs]
      exact hphase
    simp only [commit_arm, hcs, commit_wait_sync_db_file]
    by_cases hsy : s.syncing = true
    · rw [if_pos hsy]
      exact hinvS
    · rw [if_neg hsy]
      exact hphase

/-- One `commit_dirty_pages` call preserves the frame-batch invariant on
a non-`Done` result; a `Done` result means the batch frames are exactly
the snapshot's, last one carrying the database size. -/
theorem commit_loop_C1 (d : Bool) (envs : Nat → CEnv) (D : List Nat) (n : Nat)
    (base : List (Nat × Nat)) (hD : D ≠ []) :
    ∀ (fuel k : Nat) (cres : CheckpointResult) (s : PagerS)
      (res : CallRes) (kk : Nat) (s' : PagerS),
      commitFramesInv D n base s →
      commit_loop d envs fuel k cres s = (res, kk, s') →
      ((∀ r0, res ≠ CallRes.done r0) → commitFramesInv D n base s')
      ∧ (∀ r0, res = CallRes.done r0 →
          appendsOf s'.trace = (commitFrames D n).reverse ++ base) := by
  intro fuel
  induction fuel with
  | zero =>
    intro k cres s res kk s' hinv h
    simp only [commit_loop, Prod.mk.injEq] at h
    obtain ⟨rfl, -, rfl⟩ := h
    exact ⟨fun _ => hinv, fun r0 h0 => absurd h0 (by simp)⟩
  | succ n1 ih =>
    intro k cres s res kk s' hinv h
    have hstep := commit_arm_C1 d (envs k) cres s D n base hD hinv
    rcases harm : commit_arm d (envs k) cres s
      with s1 | s1 | ⟨r0, s1⟩ | s1 | s1 | -
    · rw [harm] at hstep
      simp only [commitStepC1] at hstep
      simp only [commit_loop, harm, Prod.mk.injEq] at h
      obtain ⟨rfl, -, rfl⟩ := h
      exact ⟨fun _ => hstep, fun r0 h0 => absurd h0 (by simp)⟩
    · rw [harm] at hstep
      simp only [commitStepC1] at hstep
      simp only [commit_loop, harm, Prod.mk.injEq] at h
      obtain ⟨rfl, -, rfl⟩ := h
      exact ⟨fun _ => hstep, fun r0 h0 => absurd h0 (by simp)⟩
    · rw [harm] at hstep
      simp only [commitStepC1] at hstep
      simp only [commit_loop, harm, Prod.mk.injEq] at h
      obtain ⟨rfl, -, rfl⟩ := h
      exact ⟨fun hne => absurd rfl (hne r0), fun _ _ => hstep⟩
    · rw [harm] at hstep
      simp only [commitStepC1] at hstep
      simp only [commit_loop, harm, Prod.mk.injEq] at h
      obtain ⟨rfl, -, rfl⟩ := h
      exact ⟨fun _ => hstep, fun r0 h0 => absurd h0 (by simp)⟩
    · rw [harm] at hstep
      simp only [commitStepC1] at hstep
      simp only [commit_loop, harm] at h
      exact ih (k + 1) cres s1 res kk s' hstep h
    · rw [harm] at hstep
      simp only [commitStepC1] at hstep
      have hap : appendsOf s.trace = (commitFrames D n).reverse ++ base := by
        have h2 := hinv.2
        simp only [hstep] at h2
        exact h2
      rcases hckl : checkpoint_loop envs n1 k .dflt s with ⟨ckr, kk1, s1⟩
      obtain ⟨hci, hh, u, hu1, hu2⟩ :=
        checkpoint_loop_frame envs n1 k .dflt s ckr kk1 s1 hckl
      have hap1 : appendsOf s1.trace = (commitFrames D n).reverse ++ base := by
        rw [hu1, appendsOf_append_list, appendsOf_ck_nil u hu2]
        simpa using hap
      have hn1 : s1.header.databaseSize = n := by
        rw [hh]; exact hinv.1
      cases ckr with
      | io =>
        simp only [commit_loop, harm, hckl, Prod.mk.injEq] at h
        obtain ⟨rfl, -, rfl⟩ := h
        refine ⟨fun _ => ⟨hn1, ?_⟩, fun r0 h0 => absurd h0 (by simp)⟩
        simp only [hci, hstep]
        exact hap1
      | err =>
        simp only [commit_loop, harm, hckl, Prod.mk.injEq] at h
        obtain ⟨rfl, -, rfl⟩ := h
        refine ⟨fun _ => ⟨hn1, ?_⟩, fun r0 h0 => absurd h0 (by simp)⟩
        simp only [hci, hstep]
        exact hap1
      | outOfFuel =>
        simp only [commit_loop, harm, hckl, Prod.mk.injEq] at h
        obtain ⟨rfl, -, rfl⟩ := h
        refine ⟨fun _ => ⟨hn1, ?_⟩, fun r0 h0 => absurd h0 (by simp)⟩
        simp only [hci, hstep]
        exact hap1
      | done r1 =>
        simp only [commit_loop, harm, hckl] at h
        have hinv2 : commitFramesInv D n base
            { s1 with commitInfo :=
                { s1.commitInfo with state := CommitState.syncDbFile } } := by
          refine ⟨hn1, ?_⟩
          exact hap1
        exact ih kk1 r1 _ res kk s' hinv2 h

/-- A pump-driven run of `commit_dirty_pages` that ends in `Done` leaves
in the WAL exactly the snapshot's frames on top of the initial appends. -/
theorem commit_run_C1 (d : Bool) (D : List Nat) (n : Nat)
    (base : List (Nat × Nat)) (hD : D ≠ []) :
    ∀ (scheds : List CallSched) (s : PagerS), commitFramesInv D n base s →
      ∀ r0 s', commit_run d scheds s = (CallRes.done r0, s') →
        appendsOf s'.trace = (commitFrames D n).reverse ++ base := by
  intro scheds
  induction scheds with
  | nil =>
    intro s hinv r0 s' h
    simp only [commit_run] at h
    exact absurd (congrArg Prod.fst h) (by simp)
  | cons c rest ih =>
    intro s hinv r0 s' h
    rcases hcl : commit_loop d c.envs c.fuel 0 .dflt s with ⟨cr, k1, s1⟩
    have hone := commit_loop_C1 d c.envs D n base hD c.fuel 0 .dflt s cr k1 s1
      hinv hcl
    cases cr with
    | io =>
      simp only [commit_run, hcl] at h
      have hinv1 := io_pump_C1 D n base c.pumpCommitWrites c.pumpFlushWrites
        c.pumpCkptWrites c.pumpFsync s1 (hone.1 (by simp))
      exact ih _ hinv1 r0 s' h
    | done r1 =>
      simp only [commit_run, hcl] at h
      obtain rfl : s1 = s' := congrArg Prod.snd h
      exact hone.2 r1 rfl
    | err =>
      simp only [commit_run, hcl] at h
      exact absurd (congrArg Prod.fst h) (by simp)
    | panicked =>
      simp only [commit_run, hcl] at h
      exact absurd (congrArg Prod.fst h) (by simp)
    | outOfFuel =>
      simp only [commit_run, hcl] at h
      exact absurd (congrArg Prod.fst h) (by simp)

/-- C1: in any pump-driven execution of `commit_dirty_pages` entered in
`Start` with a non-empty dirty snapshot `D` and header database size `n`
that completes with `Done`, the frames appended to the WAL are, in
chronological order, exactly the pages of `D`, each with `db_size = 0`
except the last, which carries `db_size = n` — so the frame carrying the
nonzero size is the last of the batch. -/
theorem C1_commit_frames (d : Bool) (scheds : List CallSched) (s : PagerS)
    (D : List Nat) (n : Nat)
    (hstate : s.commitInfo.state = CommitState.start)
    (hD : s.dirtyPages = D) (hne : D ≠ [])
    (hn : s.header.databaseSize = n)
    (r0 : PagerCommitResult) (s' : PagerS)
    (hrun : commit_run d scheds s = (CallRes.done r0, s')) :
    appendsOf s'.trace = (commitFrames D n).reverse ++ appendsOf s.trace := by
  have hinv : commitFramesInv D n (appendsOf s.trace) s := by
    refine ⟨hn, ?_⟩
    simp only [hstate]
    exact ⟨hD, by trivial⟩
  exact commit_run_C1 d D n (appendsOf s.trace) hne scheds s hinv r0 s' hrun

/-- Witness for C1: a concrete two-page commit run; the last frame of the
batch carries the database size 4, the first carries 0. -/
theorem C1_commit_frames_witness :
    ∃ s', commit_run false [okSched] dirtyTwoPager
        = (CallRes.done PagerCommitResult.WalWritten, s')
      ∧ appendsOf s'.trace = (commitFrames [3, 4] 4).reverse
          ++ appendsOf dirtyTwoPager.trace := by
  have h : commit_run false [okSched] dirtyTwoPager
      = (CallRes.done PagerCommitResult.WalWritten,
         (commit_run false [okSched] dirtyTwoPager).2) := rfl
  exact ⟨_, h, C1_commit_frames false [okSched] dirtyTwoPager [3, 4] 4
    rfl rfl (by decide) rfl PagerCommitResult.WalWritten _ h⟩

end LimboPager
